import Mathlib

/-!
Shallow embedding of the Imagy image-search core (src/main.py) and proofs of
the frozen specification claims.

The embedding models:

- `ProxyManager` (src/main.py lines 55-123): proxy pool state, `load_proxies`,
  `get_proxy`, `mark_proxy_failed`, `rotate_proxy`.  Network fetch and
  `random.shuffle` are supplied by an environment (`LoadEnv`).
- `ImageSearchAPI._make_request` (lines 140-212): the retry loop, modelled as
  a step function over an explicit state (rate-limit counter + proxy pool),
  with each attempt's upstream outcome supplied by an environment and with an
  event trace recording counter writes and proxy acquisitions.
- `ImageSearchAPI._normalize_url` (lines 214-222).
- `ImageSearchAPI.search_duckduckgo_images` (lines 266-330), with each page
  fetch + JSON parse supplied by the environment as `Except Unit (List DDGRow)`
  (any exception of the underlying request/parse surfaces as `.error`).
- `ImageSearchAPI.search_bing_images` (lines 332-444), with the fetched and
  soup-parsed page supplied by the environment; the `re.findall` results of
  Strategy A are environment data on each script tag.
- `ImageSearchAPI.search_images` (lines 446-462), with an event trace
  recording which extractor was invoked.

Python exceptions are modelled with `Except`; Python machine integers are
unbounded so `Int`/`Nat` are exact.  `str.startswith` is modelled as a prefix
test on the character list; other Python string operations (lower, strip,
split, replace, substring containment, int of a digit string) are modelled by
kernel-computable character-list functions defined below.
-/

namespace Imagy

deriving instance DecidableEq for Except

/-- Models Python `s.startswith(p)` (a prefix test on the characters). -/
def strStartsWith (s p : String) : Bool :=
  p.data.isPrefixOf s.data

/-- Whether `pat` occurs as a contiguous run inside `s` (helper for Python
`pat in s`). -/
def charsContains (pat : List Char) : List Char → Bool
  | [] => pat.isEmpty
  | c :: rest => pat.isPrefixOf (c :: rest) || charsContains pat rest

/-- Models Python `p in s` (substring containment) for nonempty `p`. -/
def strContains (s p : String) : Bool :=
  charsContains p.data s.data

/-- ASCII lowering of one character (Python `str.lower`, ASCII fragment). -/
def asciiLower (c : Char) : Char :=
  if 65 ≤ c.toNat ∧ c.toNat ≤ 90 then Char.ofNat (c.toNat + 32) else c

/-- Models Python `s.lower()`. -/
def strToLower (s : String) : String :=
  String.mk (s.data.map asciiLower)

/-- Python `str.strip` whitespace test. -/
def isSpaceChar (c : Char) : Bool :=
  c = ' ' || c = '\t' || c = '\n' || c = '\r'

/-- Models Python `s.strip()`. -/
def pyStrip (s : String) : String :=
  String.mk (((s.data.dropWhile isSpaceChar).reverse.dropWhile isSpaceChar).reverse)

/-- Models Python `s.split('\n')` (helper; returns at least one piece). -/
def splitLinesAux : List Char → List Char → List String
  | [], acc => [String.mk acc.reverse]
  | c :: rest, acc =>
      if c = '\n' then String.mk acc.reverse :: splitLinesAux rest []
      else splitLinesAux rest (c :: acc)

/-- Models Python `s.split('\n')`. -/
def splitLines (s : String) : List String :=
  splitLinesAux s.data []

/-- Left-to-right non-overlapping replacement on character lists, with fuel
(structural recursion; fuel = list length suffices since each step consumes
at least one character). -/
def replaceChars (pat rep : List Char) : Nat → List Char → List Char
  | _, [] => []
  | 0, l => l
  | fuel + 1, c :: rest =>
      if pat.isPrefixOf (c :: rest) && !pat.isEmpty then
        rep ++ replaceChars pat rep fuel ((c :: rest).drop pat.length)
      else c :: replaceChars pat rep fuel rest

/-- Models Python `s.replace(pat, rep)` for nonempty `pat`. -/
def strReplace (s pat rep : String) : String :=
  String.mk (replaceChars pat.data rep.data s.data.length s.data)

/-- Value of a digit string (helper for Python `int(s)` on digit strings). -/
def digitsToNat (l : List Char) : Nat :=
  l.foldl (fun acc c => acc * 10 + (c.toNat - 48)) 0

/-- The canonical result shape: pydantic model `ImageResult` (lines 21-28). -/
structure ImageResult where
  title : String
  image : String
  thumbnail : String
  url : String
  height : Int
  width : Int
  source : String
deriving Repr, DecidableEq

/-- Exceptions that the embedded code can raise. -/
inductive Err where
  /-- `requests.exceptions.ProxyError` -/
  | proxyError
  /-- `requests.exceptions.RequestException`; the flag records whether its
  message contains `"429"` or `"rate limit"` (line 197). -/
  | reqException (rateLike : Bool)
  /-- `requests.exceptions.HTTPError` raised by `raise_for_status` for a
  4xx/5xx status (line 182). -/
  | httpError (status : Nat)
  /-- Python `IndexError` (out-of-range list indexing). -/
  | indexError
  /-- `Exception("Failed to make request after ... attempts")` (line 212). -/
  | exhaustedError
deriving Repr, DecidableEq

/-! ## ProxyManager (lines 55-123) -/

/-- Mutable state of `ProxyManager`: the endpoint list, the rotation cursor,
and the failed set (a Python `set`, modelled as a duplicate-free list). -/
structure PMState where
  proxies : List String
  current_proxy_index : Nat
  failed_proxies : List String
deriving Repr, DecidableEq

/-- Environment for `load_proxies`: the outcome of the
`requests.get("https://proxies.typegpt.net/ips.txt")` fetch (`none` models any
exception, including a non-2xx from `raise_for_status`), and the permutation
applied by `random.shuffle`. -/
structure LoadEnv where
  fetched : Option String
  shuffle : List String → List String

/-- `ProxyManager.load_proxies` (lines 64-84): on success, split the body into
lines, keep nonempty lines starting with `http://`, shuffle; on any failure
leave the pool empty.  The cursor and failed set are not touched. -/
def load_proxies (env : LoadEnv) (s : PMState) : PMState :=
  match env.fetched with
  | some text =>
      let ls := (splitLines (pyStrip text)).map (fun l => pyStrip l)
      let ps := ls.filter (fun l => l ≠ "" && strStartsWith l "http://")
      { s with proxies := env.shuffle ps }
  | none => { s with proxies := [] }

/-- `ProxyManager.mark_proxy_failed` (lines 114-118): add to the failed set if
the argument is truthy; idempotent (set insertion). -/
def mark_proxy_failed (p : Option String) (s : PMState) : PMState :=
  match p with
  | some q =>
      if q ≠ "" then
        if q ∈ s.failed_proxies then s
        else { s with failed_proxies := q :: s.failed_proxies }
      else s
  | none => s

/-- `ProxyManager.rotate_proxy` (lines 120-123). -/
def rotate_proxy (s : PMState) : PMState :=
  if s.proxies = [] then s
  else { s with current_proxy_index := (s.current_proxy_index + 1) % s.proxies.length }

/-- The reload performed inside `get_proxy` (lines 93-95 and 109-111): the
failed set is cleared first, then `load_proxies` refetches the list. -/
def reload_pool (env : LoadEnv) (s : PMState) : PMState :=
  load_proxies env { s with failed_proxies := [] }

/-- Result of the scanning `while` loop of `get_proxy` (lines 98-106). -/
inductive ScanRes where
  | found (p : String) (s : PMState)
  | allFailed (s : PMState)
  /-- `self.proxies[self.current_proxy_index]` was out of range. -/
  | ixError (s : PMState)
deriving Repr

/-- The `while attempts < len(self.proxies)` loop of `get_proxy`
(lines 98-106), with the remaining attempt budget as fuel. -/
def scanProxies (s : PMState) : Nat → ScanRes
  | 0 => .allFailed s
  | n + 1 =>
      match s.proxies.get? s.current_proxy_index with
      | none => .ixError s
      | some p =>
          if p ∈ s.failed_proxies then
            scanProxies
              { s with current_proxy_index :=
                  (s.current_proxy_index + 1) % s.proxies.length } n
          else .found p s

/-- `ProxyManager.get_proxy` (lines 86-112).  Returns the raised exception or
the optional proxy, the final pool state, and whether a reload was triggered.
The float threshold `len(failed) > len(proxies) * 0.8` is rendered exactly as
`5 * |failed| > 4 * |proxies|`. -/
def get_proxy (env : LoadEnv) (s : PMState) :
    Except Err (Option String) × PMState × Bool :=
  if s.proxies = [] then (.ok none, s, false)
  else
    let reloaded := 5 * s.failed_proxies.length > 4 * s.proxies.length
    let s1 := if reloaded then reload_pool env s else s
    match scanProxies s1 s1.proxies.length with
    | .found p s2 => (.ok (some p), s2, reloaded)
    | .ixError s2 => (.error .indexError, s2, reloaded)
    | .allFailed s2 =>
        let s3 := reload_pool env s2
        (.ok s3.proxies.head?, s3, true)

/-! ## ImageSearchAPI._make_request (lines 140-212) -/

/-- What the upstream does on one attempt of `_make_request`: a response with
a given status code, or a raised transport exception. -/
inductive AttemptOutcome where
  | status (code : Nat)
  | proxyErr
  /-- `requests.exceptions.RequestException` whose message does (`true`) or
  does not contain `"429"` / `"rate limit"` (line 197). -/
  | reqExc (rateLike : Bool)
deriving Repr, DecidableEq

/-- Environment of one `_make_request` call: the outcome of each attempt's
request, and the proxy-list fetch environment for `get_proxy` calls. -/
structure ReqEnv where
  outcomes : Nat → AttemptOutcome
  penv : LoadEnv

/-- Shared mutable state touched by `_make_request`: the process-wide
rate-limit counter (a Python int, line 137) and the proxy pool. -/
structure MRState where
  rlc : Int
  pm : PMState
deriving Repr, DecidableEq

/-- Observable events of `_make_request`, for stating the invariants:
every write to `rate_limit_count` and every `get_proxy` acquisition
(tagged with the counter value at the start of that attempt). -/
inductive Ev where
  | rlcSet (v : Int)
  | proxyAcquired (cStart : Int) (p : Option String)
deriving Repr, DecidableEq

/-- How one attempt of the retry loop ends: return a response, `continue`
to the next attempt, or raise. -/
inductive AttemptRes where
  | done (status : Nat)
  | retry
  | fail (e : Err)
deriving Repr, DecidableEq

/-- The `except requests.exceptions.RequestException` handler
(lines 196-210), parametrized by the rate-like message flag and the caught
exception (re-raised when attempts are exhausted).  `hasNext` is
`attempt < max_retries - 1`. -/
def handleReqError (hasNext rl : Bool) (e : Err) (st : MRState)
    (cp : Option String) : MRState × List Ev × AttemptRes :=
  if rl then
    let st1 := { rlc := st.rlc + 1, pm := mark_proxy_failed cp st.pm }
    let evs := [Ev.rlcSet (st.rlc + 1)]
    if hasNext then ({ st1 with pm := rotate_proxy st1.pm }, evs, .retry)
    else (st1, evs, .fail e)
  else
    if hasNext then (st, [], .retry) else (st, [], .fail e)

/-- The `except requests.exceptions.ProxyError` handler (lines 185-194):
mark the current proxy failed, rotate unconditionally, then retry after a
1-second sleep or re-raise on the last attempt. -/
def handleProxyError (hasNext : Bool) (st : MRState) (cp : Option String) :
    MRState × List Ev × AttemptRes :=
  let st1 := { st with pm := rotate_proxy (mark_proxy_failed cp st.pm) }
  if hasNext then (st1, [], .retry) else (st1, [], .fail .proxyError)

/-- Response processing of one attempt (lines 166-183): the 429/403/503
branch, the 200 decrement with floor 0, and `raise_for_status`, whose
`HTTPError` for a 4xx/5xx status is caught by the `RequestException`
handler (its message contains `"429"` exactly when the status is 429). -/
def handleResponse (hasNext : Bool) (c : Nat) (st : MRState)
    (cp : Option String) : MRState × List Ev × AttemptRes :=
  let limited := c = 429 ∨ c = 403 ∨ c = 503
  let st1 :=
    if limited then { rlc := st.rlc + 1, pm := mark_proxy_failed cp st.pm }
    else st
  let evs1 : List Ev := if limited then [.rlcSet (st.rlc + 1)] else []
  if limited ∧ hasNext then
    ({ st1 with pm := rotate_proxy st1.pm }, evs1, .retry)
  else
    let st2 := if c = 200 then { st1 with rlc := max 0 (st1.rlc - 1) } else st1
    let evs2 := if c = 200 then evs1 ++ [Ev.rlcSet (max 0 (st1.rlc - 1))] else evs1
    if 400 ≤ c ∧ c < 600 then
      let (st3, evs3, r) := handleReqError hasNext (c = 429) (.httpError c) st2 cp
      (st3, evs2 ++ evs3, r)
    else (st2, evs2, .done c)

/-- The `current_proxy` variable and the `proxies` entry of `kwargs`, both of
which persist across attempts of one `_make_request` call. -/
structure LoopCtx where
  currentProxy : Option String
  kwargsProxy : Option String
deriving Repr, DecidableEq

/-- One iteration of the `for attempt in range(max_retries)` loop
(lines 145-210): the proxy-acquisition phase (lines 147-155; an exception
from `get_proxy` matches neither `except` clause and aborts the whole call),
the request itself, and the response/exception handling. -/
def attemptStep (env : ReqEnv) (i : Nat) (hasNext : Bool) (st : MRState)
    (ctx : LoopCtx) : MRState × LoopCtx × List Ev × AttemptRes :=
  let phase : Except (Err × PMState) (MRState × LoopCtx × List Ev) :=
    if 2 < st.rlc then
      match get_proxy env.penv st.pm with
      | (.error e, pm1, _) => .error (e, pm1)
      | (.ok p, pm1, _) =>
          let ctx1 : LoopCtx :=
            { currentProxy := p,
              kwargsProxy := match p with | some q => some q | none => ctx.kwargsProxy }
          .ok ({ st with pm := pm1 }, ctx1, [Ev.proxyAcquired st.rlc p])
    else .ok (st, ctx, [])
  match phase with
  | .error (e, pm1) => ({ st with pm := pm1 }, ctx, [], .fail e)
  | .ok (st1, ctx1, evs1) =>
      match env.outcomes i with
      | .status c =>
          let (st2, evs2, r) := handleResponse hasNext c st1 ctx1.currentProxy
          (st2, ctx1, evs1 ++ evs2, r)
      | .proxyErr =>
          let (st2, evs2, r) := handleProxyError hasNext st1 ctx1.currentProxy
          (st2, ctx1, evs1 ++ evs2, r)
      | .reqExc rl =>
          let (st2, evs2, r) :=
            handleReqError hasNext rl (.reqException rl) st1 ctx1.currentProxy
          (st2, ctx1, evs1 ++ evs2, r)

/-- The retry loop over the remaining attempt indices; falling off the end of
the loop reaches the `raise Exception(...)` of line 212. -/
def mrLoop (env : ReqEnv) : List Nat → MRState → LoopCtx → List Ev →
    Except Err Nat × MRState × List Ev
  | [], st, _, evs => (.error .exhaustedError, st, evs)
  | i :: rest, st, ctx, evs =>
      match attemptStep env i (!rest.isEmpty) st ctx with
      | (st1, _, evs1, .done c) => (.ok c, st1, evs ++ evs1)
      | (st1, _, evs1, .fail e) => (.error e, st1, evs ++ evs1)
      | (st1, ctx1, evs1, .retry) => mrLoop env rest st1 ctx1 (evs ++ evs1)

/-- `ImageSearchAPI._make_request` (lines 140-212) with `max_retries = 3`:
returns the response status or the raised exception, the final shared state,
and the event trace. -/
def make_request (env : ReqEnv) (st : MRState) :
    Except Err Nat × MRState × List Ev :=
  mrLoop env [0, 1, 2] st { currentProxy := none, kwargsProxy := none } []

/-- A sequence of `_make_request` executions against the shared state,
collecting all events. -/
def run_requests (envs : List ReqEnv) (st : MRState) : MRState × List Ev :=
  envs.foldl
    (fun acc e =>
      let r := make_request e acc.1
      (r.2.1, acc.2 ++ r.2.2))
    (st, [])

/-! ## URL normalization (lines 214-222) -/

/-- `ImageSearchAPI._normalize_url` (lines 214-222). -/
def normalize_url (url : String) : String :=
  if url = "" then ""
  else if strStartsWith url "//" then "https:" ++ url
  else if !(strStartsWith url "http://" || strStartsWith url "https://") then
    "https://" ++ url
  else url

/-! ## PrimaryExtractor: search_duckduckgo_images (lines 266-330) -/

/-- One entry of a parsed DuckDuckGo page (`data["results"]`), holding the
values read by lines 305-316.  `image` collapses a missing key / `None` /
empty string (all falsy at line 306) to `""`.  `height`/`width` hold the
outcome of `int(row.get(k, 0))`: `none` means the coercion raises, and a
missing key yields `some 0`.  `source` is `none` when the key is missing
(the `.get` default `"DuckDuckGo"` then applies). -/
structure DDGRow where
  title : String
  image : String
  thumbnail : String
  url : String
  height : Option Int
  width : Option Int
  source : Option String
deriving Repr, DecidableEq

/-- Environment of one `search_duckduckgo_images` call.  `vqdResponse`
abstracts the landing-page request of `_get_vqd` (lines 248-257) composed
with `_extract_vqd` (itself total): `.error` models any exception of that
request.  `time`/`queryHash` feed the synthetic fallback token
(lines 259-264, md5 prefix abstracted).  `pages s` is the composite of the
`i.js` request and `response.json()["results"]` for page offset `s`
(lines 291-299): `.error` models any exception raised there. -/
structure DDGEnv where
  vqdResponse : Except Unit String
  time : Nat
  queryHash : String
  pages : Nat → Except Unit (List DDGRow)

/-- The synthetic fallback token of lines 259-264 (and 241-246). -/
def fallback_vqd (env : DDGEnv) (keywords : String) : String :=
  toString env.time ++ "-" ++ env.queryHash ++ "-" ++ toString keywords.length

/-- `ImageSearchAPI._get_vqd` (lines 248-264): the landing-page request with
a catch-all falling back to the synthetic token; never raises. -/
def get_vqd (env : DDGEnv) (keywords : String) : String :=
  match env.vqdResponse with
  | .ok t => t
  | .error _ => fallback_vqd env keywords

/-- Builds the `ImageResult` of lines 308-316 from a row (assuming the
integer coercions succeed, with 0 for the `none` case). -/
def mkDDGResult (r : DDGRow) : ImageResult :=
  { title := r.title
    image := normalize_url r.image
    thumbnail := normalize_url r.thumbnail
    url := normalize_url r.url
    height := r.height.getD 0
    width := r.width.getD 0
    source := r.source.getD "DuckDuckGo" }

/-- The `for row in page_data` loop (lines 301-317), threading the results
list and the dedup cache.  A row is processed only while fewer than
`max_results` results are collected; it is selected when its raw image URL
is nonempty and unseen; the cache records the raw URL before the
`ImageResult` construction, so a failing `int()` coercion (modelled by a
`none` dimension) aborts the page — the exception is caught by the per-page
`except` of lines 321-323 — while keeping the results and cache updates made
so far. -/
def processRows (maxR : Nat) :
    List DDGRow → List ImageResult → List String → List ImageResult × List String
  | [], res, cache => (res, cache)
  | r :: rest, res, cache =>
      if maxR ≤ res.length then (res, cache)
      else if r.image ≠ "" ∧ r.image ∉ cache then
        match r.height, r.width with
        | some _, some _ =>
            processRows maxR rest (res ++ [mkDDGResult r]) (r.image :: cache)
        | _, _ => (res, r.image :: cache)
      else processRows maxR rest res cache

/-- The `for page in [0, 100]` loop (lines 285-323): stop once full, skip a
page whose fetch/parse raised, otherwise process its rows. -/
def ddgPages (env : DDGEnv) (maxR : Nat) :
    List Nat → List ImageResult → List String → List ImageResult
  | [], res, _ => res
  | p :: rest, res, cache =>
      if maxR ≤ res.length then res
      else
        match env.pages p with
        | .error _ => ddgPages env maxR rest res cache
        | .ok rows =>
            ddgPages env maxR rest (processRows maxR rows res cache).1
              (processRows maxR rows res cache).2

/-- `ImageSearchAPI.search_duckduckgo_images` (lines 266-330).  The token is
acquired (advisory only — it parametrizes the upstream request, which the
environment already accounts for); every exception inside the top-level
`try` of lines 268-330 is already absorbed by `_get_vqd`'s internal catch or
the per-page `except`, so the catch-all of lines 328-330 is unreachable. -/
def search_duckduckgo_images (env : DDGEnv) (keywords : String)
    (max_results : Nat) : List ImageResult :=
  let _vqd := get_vqd env keywords
  ddgPages env max_results [0, 100] [] []

/-! ## FallbackExtractor: search_bing_images (lines 332-444) -/

/-- A `<script>` tag of the parsed Bing page.  `str` is `script.string`
(`none` when absent).  `triples` abstracts
`re.findall(r'"murl":"([^"]+)".*?"turl":"([^"]+)".*?"t":"([^"]*)"', ...)`
over that string: the list of (murl, turl, t) triples. -/
structure ScriptTag where
  str : Option String
  triples : List (String × String × String)
deriving Repr, DecidableEq

/-- An `<img>` element with a `src` attribute (`find_all('img', src=True)`).
`width`/`height`/`alt` are `none` when the attribute is absent (the `.get`
defaults `'0'` / `'0'` / the generic title then apply). -/
structure ImgTag where
  src : String
  width : Option String
  height : Option String
  alt : Option String
deriving Repr, DecidableEq

/-- The fetched and soup-parsed Bing results page. -/
structure BingPage where
  scripts : List ScriptTag
  imgs : List ImgTag
deriving Repr, DecidableEq

/-- Environment of one `search_bing_images` call: the composite of the
`_make_request` of lines 353-359 and the `BeautifulSoup` parse; `.error`
models any exception raised there. -/
structure BingEnv where
  fetch : Except Unit BingPage

/-- The Bing search URL (line 338), also used as each result's `url`. -/
def bingSearchUrl : String := "https://www.bing.com/images/search"

/-- Models Python `s.isdigit()`: nonempty and all digits. -/
def isdigitStr (s : String) : Bool :=
  s ≠ "" && s.data.all (fun ch => ch.isDigit)

/-- Models `int(s)` for a string passing `isdigit` (0 otherwise; the
embedding only applies it under an `isdigit` guard). -/
def strToInt (s : String) : Int :=
  (digitsToNat s.data : Nat)

/-- Models `s.replace('\\u0026', '&')` of lines 380-381. -/
def replaceAmp (s : String) : String :=
  strReplace s "\\u0026" "&"

/-- One result of Strategy A, from a (murl, turl, t) triple (lines 380-392):
the escaped ampersands are unescaped, the title defaults to
`f"{keywords} image"` when the extracted group is empty. -/
def mkAResult (keywords : String) (m : String × String × String) : ImageResult :=
  { title := if m.2.2 = "" then keywords ++ " image" else m.2.2
    image := normalize_url (replaceAmp m.1)
    thumbnail := normalize_url (replaceAmp m.2.1)
    url := bingSearchUrl
    height := 0
    width := 0
    source := "Bing" }

/-- The script-tag guard of line 367: `script.string` is truthy and contains
`'mediaurl'` case-insensitively. -/
def scriptHasMediaUrl (t : ScriptTag) : Bool :=
  match t.str with
  | some s => s ≠ "" && strContains (strToLower s) "mediaurl"
  | none => false

/-- Strategy A (lines 364-400): scan scripts in order; in a matching script
build results from the first `max_results` triples (entering a script the
results list is always empty, so the in-loop length check of line 377 never
truncates further); `if results: break` stops at the first script yielding
any matches. -/
def stratA (keywords : String) (maxR : Nat) : List ScriptTag → List ImageResult
  | [] => []
  | t :: rest =>
      if scriptHasMediaUrl t then
        if (t.triples.take maxR).map (mkAResult keywords) ≠ [] then
          (t.triples.take maxR).map (mkAResult keywords)
        else stratA keywords maxR rest
      else stratA keywords maxR rest

/-- The blacklist test of line 416. -/
def blacklisted (src : String) : Bool :=
  ["icon", "logo", "button", "pixel", "blank"].any
    (fun x => strContains (strToLower src) x)

/-- One result of Strategy B, from an `<img>` element (lines 426-436). -/
def mkBResult (keywords : String) (img : ImgTag) : ImageResult :=
  let width := img.width.getD "0"
  let height := img.height.getD "0"
  { title := img.alt.getD (keywords ++ " image")
    image := normalize_url img.src
    thumbnail := normalize_url img.src
    url := bingSearchUrl
    height := if isdigitStr height then strToInt height else 0
    width := if isdigitStr width then strToInt width else 0
    source := "Bing (fallback)" }

/-- The filter loop body of Strategy B over `img_tags[:max_results * 2]`
(lines 407-437). -/
def stratBGo (keywords : String) (maxR : Nat) :
    List ImgTag → List ImageResult → List ImageResult
  | [], res => res
  | img :: rest, res =>
      if maxR ≤ res.length then res
      else if img.src = "" ∨ strStartsWith img.src "data:" then
        stratBGo keywords maxR rest res
      else if blacklisted img.src then stratBGo keywords maxR rest res
      else if isdigitStr (img.width.getD "0") ∧ isdigitStr (img.height.getD "0") ∧
          (strToInt (img.width.getD "0") < 100 ∨ strToInt (img.height.getD "0") < 100) then
        stratBGo keywords maxR rest res
      else stratBGo keywords maxR rest (res ++ [mkBResult keywords img])

/-- Strategy B (lines 402-437): the degraded `<img>`-scanning fallback,
examining at most `2 * max_results` candidate elements. -/
def stratB (keywords : String) (maxR : Nat) (imgs : List ImgTag) :
    List ImageResult :=
  stratBGo keywords maxR (imgs.take (maxR * 2)) []

/-- `ImageSearchAPI.search_bing_images` (lines 332-444): fetch and parse the
page (any exception is absorbed by the catch-all of lines 442-444, yielding
`[]`), run Strategy A, and fall back to Strategy B when it yields nothing. -/
def search_bing_images (env : BingEnv) (keywords : String)
    (max_results : Nat) : List ImageResult :=
  match env.fetch with
  | .error _ => []
  | .ok page =>
      if stratA keywords max_results page.scripts = [] then
        stratB keywords max_results page.imgs
      else stratA keywords max_results page.scripts

/-! ## SearchOrchestrator: search_images (lines 446-462) -/

/-- Which extractor the orchestrator invoked. -/
inductive EngineCall where
  | ddg
  | bing
deriving Repr, DecidableEq

/-- Environment of one `search_images` call. -/
structure SearchEnv where
  ddg : DDGEnv
  bing : BingEnv

/-- `ImageSearchAPI.search_images` (lines 446-462): DuckDuckGo first; if it
yields nothing, Bing; if both yield nothing, `([], "None")`.  The third
component is the trace of extractor invocations. -/
def search_images (env : SearchEnv) (keywords : String) (max_results : Nat) :
    List ImageResult × String × List EngineCall :=
  if search_duckduckgo_images env.ddg keywords max_results ≠ [] then
    (search_duckduckgo_images env.ddg keywords max_results, "DuckDuckGo", [.ddg])
  else if search_bing_images env.bing keywords max_results ≠ [] then
    (search_bing_images env.bing keywords max_results, "Bing", [.ddg, .bing])
  else ([], "None", [.ddg, .bing])

/-! ## Helper lemmas: string prefixes and URL normalization -/

theorem strStartsWith_iff {s p : String} :
    strStartsWith s p = true ↔ p.data <+: s.data := by
  simp [strStartsWith]

theorem strStartsWith_append (p u : String) : strStartsWith (p ++ u) p = true := by
  rw [strStartsWith_iff, String.data_append]
  exact List.prefix_append _ _

/-- If `u` starts with `p` and `q` is a short string that is not a prefix of
`p`, then `u` does not start with `q`. -/
theorem strStartsWith_excl {u p q : String} (hp : strStartsWith u p = true)
    (hq : ¬ q.data <+: p.data) (hlen : q.data.length ≤ p.data.length) :
    strStartsWith u q = false := by
  rw [strStartsWith_iff] at hp
  by_contra h
  rw [Bool.not_eq_false, strStartsWith_iff] at h
  exact hq (List.prefix_of_prefix_length_le h hp hlen)

theorem ne_empty_of_strStartsWith {u p : String} (hp : strStartsWith u p = true)
    (hne : p.data ≠ []) : u ≠ "" := by
  rw [strStartsWith_iff] at hp
  intro he
  subst he
  have h0 := hp.length_le
  have : p.data.length = 0 := Nat.le_zero.mp h0
  exact hne (List.eq_nil_of_length_eq_zero this)

/-- C7's first idempotence fact: an already-absolute `https` URL is returned
unchanged by `_normalize_url`. -/
theorem normalize_url_of_https {u : String} (h : strStartsWith u "https://" = true) :
    normalize_url u = u := by
  have hne : u ≠ "" := ne_empty_of_strStartsWith h (by decide)
  have h2 : strStartsWith u "//" = false :=
    strStartsWith_excl h (by decide) (by decide)
  simp [normalize_url, hne, h2, h]

/-- The shape every `_normalize_url` output has: empty, or an absolute URL
with scheme `http` or `https`. -/
def urlFieldOk (u : String) : Prop :=
  u = "" ∨ strStartsWith u "http://" = true ∨ strStartsWith u "https://" = true

theorem urlFieldOk_normalize_url (u : String) : urlFieldOk (normalize_url u) := by
  by_cases h0 : u = ""
  · left
    simp [normalize_url, h0]
  · by_cases h1 : strStartsWith u "//" = true
    · right; right
      have hout : normalize_url u = "https:" ++ u := by
        simp [normalize_url, h0, h1]
      rw [hout, strStartsWith_iff, String.data_append]
      rw [strStartsWith_iff] at h1
      obtain ⟨t, ht⟩ := h1
      refine ⟨t, ?_⟩
      rw [← ht, ← List.append_assoc]
      rfl
    · have h1f : strStartsWith u "//" = false := by simpa using h1
      by_cases h2 : (strStartsWith u "http://" || strStartsWith u "https://") = true
      · have hout : normalize_url u = u := by
          simp [normalize_url, h0, h1f, h2]
        right
        rw [hout]
        simpa using h2
      · have h2f : (strStartsWith u "http://" || strStartsWith u "https://") = false := by
          simpa using h2
        right; right
        have hout : normalize_url u = "https://" ++ u := by
          simp [normalize_url, h0, h1f, h2f]
        rw [hout]
        exact strStartsWith_append _ _

/-- All three URL fields of a result are empty or absolute http(s). -/
def resultUrlsOk (r : ImageResult) : Prop :=
  urlFieldOk r.image ∧ urlFieldOk r.thumbnail ∧ urlFieldOk r.url

theorem resultUrlsOk_mkDDGResult (r : DDGRow) : resultUrlsOk (mkDDGResult r) :=
  ⟨urlFieldOk_normalize_url _, urlFieldOk_normalize_url _, urlFieldOk_normalize_url _⟩

theorem urlFieldOk_bingSearchUrl : urlFieldOk bingSearchUrl :=
  Or.inr (Or.inr (by decide))

theorem resultUrlsOk_mkAResult (q : String) (m : String × String × String) :
    resultUrlsOk (mkAResult q m) :=
  ⟨urlFieldOk_normalize_url _, urlFieldOk_normalize_url _, urlFieldOk_bingSearchUrl⟩

theorem resultUrlsOk_mkBResult (q : String) (img : ImgTag) :
    resultUrlsOk (mkBResult q img) :=
  ⟨urlFieldOk_normalize_url _, urlFieldOk_normalize_url _, urlFieldOk_bingSearchUrl⟩

theorem processRows_urlsOk {maxR : Nat} :
    ∀ {rows : List DDGRow} {res : List ImageResult} {cache : List String},
      (∀ r ∈ res, resultUrlsOk r) →
      ∀ r ∈ (processRows maxR rows res cache).1, resultUrlsOk r := by
  intro rows
  induction rows with
  | nil =>
      intro res cache h r hr
      rw [processRows] at hr
      exact h r hr
  | cons a rest ih =>
      intro res cache h r hr
      rw [processRows] at hr
      split at hr
      · exact h r hr
      · split at hr
        · split at hr
          · refine ih ?_ r hr
            intro x hx
            rcases List.mem_append.mp hx with hx | hx
            · exact h x hx
            · rw [List.mem_singleton.mp hx]
              exact resultUrlsOk_mkDDGResult a
          · exact h r hr
        · exact ih h r hr

theorem ddgPages_urlsOk {env : DDGEnv} {maxR : Nat} :
    ∀ {ps : List Nat} {res : List ImageResult} {cache : List String},
      (∀ r ∈ res, resultUrlsOk r) →
      ∀ r ∈ ddgPages env maxR ps res cache, resultUrlsOk r := by
  intro ps
  induction ps with
  | nil =>
      intro res cache h r hr
      rw [ddgPages] at hr
      exact h r hr
  | cons p rest ih =>
      intro res cache h r hr
      rw [ddgPages] at hr
      split at hr
      · exact h r hr
      · split at hr
        · exact ih h r hr
        · exact ih (processRows_urlsOk h) r hr

theorem search_duckduckgo_urlsOk (env : DDGEnv) (q : String) (m : Nat) :
    ∀ r ∈ search_duckduckgo_images env q m, resultUrlsOk r := by
  intro r hr
  exact ddgPages_urlsOk (by intro x hx; cases hx) r hr

theorem stratA_urlsOk {q : String} {maxR : Nat} :
    ∀ {scripts : List ScriptTag}, ∀ r ∈ stratA q maxR scripts, resultUrlsOk r := by
  intro scripts
  induction scripts with
  | nil =>
      intro r hr
      rw [stratA] at hr
      cases hr
  | cons t rest ih =>
      intro r hr
      rw [stratA] at hr
      split at hr
      · split at hr
        · obtain ⟨m, _, hm⟩ := List.mem_map.mp hr
          rw [← hm]
          exact resultUrlsOk_mkAResult q m
        · exact ih r hr
      · exact ih r hr

theorem stratBGo_urlsOk {q : String} {maxR : Nat} :
    ∀ {imgs : List ImgTag} {res : List ImageResult},
      (∀ r ∈ res, resultUrlsOk r) →
      ∀ r ∈ stratBGo q maxR imgs res, resultUrlsOk r := by
  intro imgs
  induction imgs with
  | nil =>
      intro res h r hr
      rw [stratBGo] at hr
      exact h r hr
  | cons img rest ih =>
      intro res h r hr
      rw [stratBGo] at hr
      split at hr
      · exact h r hr
      · split at hr
        · exact ih h r hr
        · split at hr
          · exact ih h r hr
          · split at hr
            · exact ih h r hr
            · refine ih ?_ r hr
              intro x hx
              rcases List.mem_append.mp hx with hx | hx
              · exact h x hx
              · rw [List.mem_singleton.mp hx]
                exact resultUrlsOk_mkBResult q img

theorem search_bing_urlsOk (env : BingEnv) (q : String) (m : Nat) :
    ∀ r ∈ search_bing_images env q m, resultUrlsOk r := by
  intro r hr
  rw [search_bing_images] at hr
  split at hr
  · cases hr
  · split at hr
    · exact stratBGo_urlsOk (by intro x hx; cases hx) r hr
    · exact stratA_urlsOk r hr

/-- Environment for the C7 counterexample: one DuckDuckGo row whose raw image
URL already carries the `http` scheme and whose thumbnail is absent. -/
def envC7 : DDGEnv :=
  { vqdResponse := .error (), time := 3, queryHash := "h",
    pages := fun p =>
      if p = 0 then
        .ok [{ title := "t", image := "http://host/a.jpg", thumbnail := "",
               url := "", height := some 10, width := some 20, source := none }]
      else .ok [] }

/-- C7 counterexample: the claim says every URL field of every returned
`SearchResult` is in absolute `https`-qualified form, but on this upstream
page the primary extractor returns a result whose image URL keeps the `http`
scheme and whose thumbnail URL is the empty string. -/
theorem C7_counterexample_http_preserved :
    (search_duckduckgo_images envC7 "q" 5).map (fun r => r.image) =
        ["http://host/a.jpg"] ∧
    (search_duckduckgo_images envC7 "q" 5).map (fun r => r.thumbnail) = [""] ∧
    strStartsWith "http://host/a.jpg" "https://" = false ∧
    strStartsWith "" "https://" = false := by
  decide

/-- C7 (amended): URL normalization is idempotent on already-absolute https
URLs, maps the protocol-relative URL `//x/y.jpg` to `https://x/y.jpg` and the
bare host-relative string `x/y.jpg` to `https://x/y.jpg`; and every URL field
(image, thumbnail, source page URL) of every `SearchResult` returned by
either extractor is either empty or in absolute form with scheme `http` or
`https` (an already-absolute `http` URL is preserved as `http`; scheme-less
ones become `https`). -/
theorem C7_url_normalization :
    (∀ u, strStartsWith u "https://" = true → normalize_url u = u) ∧
    normalize_url "//x/y.jpg" = "https://x/y.jpg" ∧
    normalize_url "x/y.jpg" = "https://x/y.jpg" ∧
    (∀ env q m, ∀ r ∈ search_duckduckgo_images env q m, resultUrlsOk r) ∧
    (∀ env q m, ∀ r ∈ search_bing_images env q m, resultUrlsOk r) := by
  refine ⟨fun u h => normalize_url_of_https h, by decide, by decide, ?_, ?_⟩
  · intro env q m r hr
    exact search_duckduckgo_urlsOk env q m r hr
  · intro env q m r hr
    exact search_bing_urlsOk env q m r hr

theorem C7_url_normalization_witness :
    strStartsWith "https://a/b.png" "https://" = true ∧
    normalize_url "https://a/b.png" = "https://a/b.png" ∧
    resultUrlsOk
      { title := "t", image := "http://host/a.jpg", thumbnail := "", url := "",
        height := 10, width := 20, source := "DuckDuckGo" } :=
  ⟨by decide, C7_url_normalization.1 "https://a/b.png" (by decide),
    C7_url_normalization.2.2.2.1 envC7 "q" 5 _ (by decide)⟩

/-- C1: the orchestrator runs the primary extractor first; when it yields a
non-empty sequence the outcome carries the primary provider's engine name and
the fallback extractor is never invoked; otherwise the fallback extractor
runs exactly once and the outcome carries its engine name when non-empty, or
the `"None"` engine with an empty result sequence; each extractor is invoked
at most once per call. -/
theorem C1_search_orchestration (env : SearchEnv) (q : String) (m : Nat) :
    (search_images env q m).2.2.count .ddg = 1 ∧
    (search_images env q m).2.2.count .bing ≤ 1 ∧
    (search_duckduckgo_images env.ddg q m ≠ [] →
      search_images env q m =
        (search_duckduckgo_images env.ddg q m, "DuckDuckGo", [.ddg])) ∧
    (search_duckduckgo_images env.ddg q m = [] →
      search_bing_images env.bing q m ≠ [] →
      search_images env q m =
        (search_bing_images env.bing q m, "Bing", [.ddg, .bing])) ∧
    (search_duckduckgo_images env.ddg q m = [] →
      search_bing_images env.bing q m = [] →
      search_images env q m = ([], "None", [.ddg, .bing])) := by
  by_cases h1 : search_duckduckgo_images env.ddg q m = []
  · by_cases h2 : search_bing_images env.bing q m = []
    · have e : search_images env q m = ([], "None", [.ddg, .bing]) := by
        simp [search_images, h1, h2]
      rw [e]
      exact ⟨by decide, by decide, fun hc => absurd h1 hc,
        fun _ hb => absurd h2 hb, fun _ _ => rfl⟩
    · have e : search_images env q m =
          (search_bing_images env.bing q m, "Bing", [.ddg, .bing]) := by
        simp [search_images, h1, h2]
      rw [e]
      refine ⟨?_, ?_, fun hc => absurd h1 hc, fun _ _ => rfl,
        fun _ hb => absurd hb h2⟩
      · show (([.ddg, .bing] : List EngineCall).count .ddg) = 1
        decide
      · show (([.ddg, .bing] : List EngineCall).count .bing) ≤ 1
        decide
  · have e : search_images env q m =
        (search_duckduckgo_images env.ddg q m, "DuckDuckGo", [.ddg]) := by
      simp [search_images, h1]
    rw [e]
    refine ⟨?_, ?_, fun _ => rfl, fun hd => absurd hd h1,
      fun hd _ => absurd hd h1⟩
    · show (([.ddg] : List EngineCall).count .ddg) = 1
      decide
    · show (([.ddg] : List EngineCall).count .bing) ≤ 1
      decide

/-- A primary-provider environment yielding one result (for witnesses). -/
def envC1 : SearchEnv :=
  { ddg :=
      { vqdResponse := .ok "tok", time := 0, queryHash := "h",
        pages := fun p =>
          if p = 0 then
            .ok [{ title := "a", image := "x/y.jpg", thumbnail := "", url := "",
                   height := some 1, width := some 2, source := none }]
          else .ok [] },
    bing := { fetch := .error () } }

theorem C1_search_orchestration_witness :
    search_duckduckgo_images envC1.ddg "cat" 5 ≠ [] ∧
    search_images envC1 "cat" 5 =
      (search_duckduckgo_images envC1.ddg "cat" 5, "DuckDuckGo", [.ddg]) :=
  ⟨by decide, (C1_search_orchestration envC1 "cat" 5).2.2.1 (by decide)⟩

/-- C2: the search pipeline is effectively total — any upstream failure
during extraction or parsing (modelled as `.error` outcomes of the page
fetch / page parse environments) is absorbed: a failing extractor returns an
empty list rather than propagating, a fully failing pipeline returns the
empty outcome with engine `"None"`, and every call produces a well-formed
outcome whose engine is one of the three provider tags. -/
theorem C2_search_effectively_total (env : SearchEnv) (q : String) (m : Nat) :
    (env.ddg.pages 0 = .error () → env.ddg.pages 100 = .error () →
      search_duckduckgo_images env.ddg q m = []) ∧
    (env.bing.fetch = .error () → search_bing_images env.bing q m = []) ∧
    (env.ddg.pages 0 = .error () → env.ddg.pages 100 = .error () →
      env.bing.fetch = .error () →
      search_images env q m = ([], "None", [.ddg, .bing])) ∧
    ((search_images env q m).2.1 = "DuckDuckGo" ∨
      (search_images env q m).2.1 = "Bing" ∨
      (search_images env q m).2.1 = "None") := by
  have hd : env.ddg.pages 0 = .error () → env.ddg.pages 100 = .error () →
      search_duckduckgo_images env.ddg q m = [] := by
    intro h0 h1
    simp [search_duckduckgo_images, ddgPages, h0, h1]
  refine ⟨hd, ?_, ?_, ?_⟩
  · intro hb
    simp [search_bing_images, hb]
  · intro h0 h1 hb
    simp [search_images, hd h0 h1, search_bing_images, hb]
  · by_cases h1 : search_duckduckgo_images env.ddg q m = []
    · by_cases h2 : search_bing_images env.bing q m = []
      · right; right
        simp [search_images, h1, h2]
      · right; left
        simp [search_images, h1, h2]
    · left
      simp [search_images, h1]

/-- A fully failing environment (for witnesses). -/
def envC2 : SearchEnv :=
  { ddg := { vqdResponse := .error (), time := 0, queryHash := "h",
             pages := fun _ => .error () },
    bing := { fetch := .error () } }

theorem C2_search_effectively_total_witness :
    envC2.ddg.pages 0 = .error () ∧ envC2.ddg.pages 100 = .error () ∧
    envC2.bing.fetch = .error () ∧
    search_images envC2 "dog" 7 = ([], "None", [.ddg, .bing]) :=
  ⟨rfl, rfl, rfl, (C2_search_effectively_total envC2 "dog" 7).2.2.1 rfl rfl rfl⟩

/-! ## ProxyManager lemmas (C3, C4) -/

theorem load_proxies_failed (env : LoadEnv) (s : PMState) :
    (load_proxies env s).failed_proxies = s.failed_proxies := by
  cases h : env.fetched <;> simp [load_proxies, h]

theorem reload_pool_failed (env : LoadEnv) (s : PMState) :
    (reload_pool env s).failed_proxies = [] := by
  rw [reload_pool, load_proxies_failed]

theorem scanProxies_found {p : String} {s2 : PMState} :
    ∀ {n : Nat} {s : PMState}, scanProxies s n = .found p s2 →
      p ∉ s2.failed_proxies ∧ s2.failed_proxies = s.failed_proxies ∧
        s2.proxies = s.proxies := by
  intro n
  induction n with
  | zero =>
      intro s h
      rw [scanProxies] at h
      exact ScanRes.noConfusion h
  | succ k ih =>
      intro s h
      rw [scanProxies] at h
      cases hg : s.proxies.get? s.current_proxy_index with
      | none =>
          simp only [hg] at h
          exact ScanRes.noConfusion h
      | some q =>
          simp only [hg] at h
          by_cases hf : q ∈ s.failed_proxies
          · rw [if_pos hf] at h
            exact @ih { s with current_proxy_index :=
              (s.current_proxy_index + 1) % s.proxies.length } h
          · rw [if_neg hf] at h
            injection h with hq hs
            subst hq
            subst hs
            exact ⟨hf, rfl, rfl⟩

theorem scanProxies_allFailed {s2 : PMState} :
    ∀ {n : Nat} {s : PMState}, scanProxies s n = .allFailed s2 →
      s2.failed_proxies = s.failed_proxies ∧ s2.proxies = s.proxies := by
  intro n
  induction n with
  | zero =>
      intro s h
      rw [scanProxies] at h
      injection h with hs
      subst hs
      exact ⟨rfl, rfl⟩
  | succ k ih =>
      intro s h
      rw [scanProxies] at h
      cases hg : s.proxies.get? s.current_proxy_index with
      | none =>
          simp only [hg] at h
          exact ScanRes.noConfusion h
      | some q =>
          simp only [hg] at h
          by_cases hf : q ∈ s.failed_proxies
          · rw [if_pos hf] at h
            exact @ih { s with current_proxy_index :=
              (s.current_proxy_index + 1) % s.proxies.length } h
          · rw [if_neg hf] at h
            exact ScanRes.noConfusion h

theorem scanProxies_ixError {s2 : PMState} :
    ∀ {n : Nat} {s : PMState}, scanProxies s n = .ixError s2 →
      s2.failed_proxies = s.failed_proxies ∧ s2.proxies = s.proxies := by
  intro n
  induction n with
  | zero =>
      intro s h
      rw [scanProxies] at h
      exact ScanRes.noConfusion h
  | succ k ih =>
      intro s h
      rw [scanProxies] at h
      cases hg : s.proxies.get? s.current_proxy_index with
      | none =>
          simp only [hg] at h
          injection h with hs
          subst hs
          exact ⟨rfl, rfl⟩
      | some q =>
          simp only [hg] at h
          by_cases hf : q ∈ s.failed_proxies
          · rw [if_pos hf] at h
            exact @ih { s with current_proxy_index :=
              (s.current_proxy_index + 1) % s.proxies.length } h
          · rw [if_neg hf] at h
            exact ScanRes.noConfusion h

/-- C3: the pool never hands out an endpoint that is in the failed set — an
endpoint returned by `get_proxy` is absent from the failed set of the
resulting pool state; when no reload was triggered it is also absent from the
failed set of the initial state (a reload, which only happens when the pool
is exhausted or above the 80% failure threshold, clears the failed set before
`load_proxies` refetches, as the last two conjuncts record). -/
theorem C3_acquire_never_failed (env : LoadEnv) (s : PMState) :
    (∀ p, (get_proxy env s).1 = .ok (some p) →
      p ∉ (get_proxy env s).2.1.failed_proxies ∧
        ((get_proxy env s).2.2 = false → p ∉ s.failed_proxies)) ∧
    ((get_proxy env s).2.2 = true → (get_proxy env s).2.1.failed_proxies = []) ∧
    (∀ s2, (reload_pool env s2).failed_proxies = []) ∧
    (∀ s2, (load_proxies env s2).failed_proxies = s2.failed_proxies) := by
  refine ⟨?_, ?_, reload_pool_failed env, load_proxies_failed env⟩
  · intro p hp
    by_cases h0 : s.proxies = []
    · simp [get_proxy, h0] at hp
    · by_cases hth : 5 * s.failed_proxies.length > 4 * s.proxies.length
      · cases hscan : scanProxies (reload_pool env s)
            (reload_pool env s).proxies.length with
        | found q s2 =>
            have hg : get_proxy env s = (.ok (some q), s2, true) := by
              simp [get_proxy, h0, hth, hscan]
            rw [hg] at hp
            injection hp with hp1
            injection hp1 with hp2
            subst hp2
            obtain ⟨hnf, _, _⟩ := scanProxies_found hscan
            rw [hg]
            exact ⟨hnf, fun hfalse => by simp at hfalse⟩
        | allFailed s2 =>
            have hg : get_proxy env s =
                (.ok (reload_pool env s2).proxies.head?,
                  reload_pool env s2, true) := by
              simp [get_proxy, h0, hth, hscan]
            rw [hg]
            exact ⟨by simp [reload_pool_failed], fun hfalse => by simp at hfalse⟩
        | ixError s2 =>
            have hg : get_proxy env s = (.error .indexError, s2, true) := by
              simp [get_proxy, h0, hth, hscan]
            rw [hg] at hp
            exact Except.noConfusion hp
      · cases hscan : scanProxies s s.proxies.length with
        | found q s2 =>
            have hg : get_proxy env s = (.ok (some q), s2, false) := by
              simp [get_proxy, h0, hth, hscan]
            rw [hg] at hp
            injection hp with hp1
            injection hp1 with hp2
            subst hp2
            obtain ⟨hnf, hfe, _⟩ := scanProxies_found hscan
            rw [hg]
            refine ⟨hnf, fun _ => ?_⟩
            rw [← hfe]
            exact hnf
        | allFailed s2 =>
            have hg : get_proxy env s =
                (.ok (reload_pool env s2).proxies.head?,
                  reload_pool env s2, true) := by
              simp [get_proxy, h0, hth, hscan]
            rw [hg]
            exact ⟨by simp [reload_pool_failed], fun hfalse => by simp at hfalse⟩
        | ixError s2 =>
            have hg : get_proxy env s = (.error .indexError, s2, false) := by
              simp [get_proxy, h0, hth, hscan]
            rw [hg] at hp
            exact Except.noConfusion hp
  · intro hrel
    by_cases h0 : s.proxies = []
    · simp [get_proxy, h0] at hrel
    · by_cases hth : 5 * s.failed_proxies.length > 4 * s.proxies.length
      · cases hscan : scanProxies (reload_pool env s)
            (reload_pool env s).proxies.length with
        | found q s2 =>
            have hg : get_proxy env s = (.ok (some q), s2, true) := by
              simp [get_proxy, h0, hth, hscan]
            rw [hg]
            obtain ⟨_, hfe, _⟩ := scanProxies_found hscan
            rw [reload_pool_failed] at hfe
            exact hfe
        | allFailed s2 =>
            have hg : get_proxy env s =
                (.ok (reload_pool env s2).proxies.head?,
                  reload_pool env s2, true) := by
              simp [get_proxy, h0, hth, hscan]
            rw [hg]
            exact reload_pool_failed env s2
        | ixError s2 =>
            have hg : get_proxy env s = (.error .indexError, s2, true) := by
              simp [get_proxy, h0, hth, hscan]
            rw [hg]
            obtain ⟨hfe, _⟩ := scanProxies_ixError hscan
            rw [reload_pool_failed] at hfe
            exact hfe
      · cases hscan : scanProxies s s.proxies.length with
        | found q s2 =>
            have hg : get_proxy env s = (.ok (some q), s2, false) := by
              simp [get_proxy, h0, hth, hscan]
            rw [hg] at hrel
            simp at hrel
        | allFailed s2 =>
            have hg : get_proxy env s =
                (.ok (reload_pool env s2).proxies.head?,
                  reload_pool env s2, true) := by
              simp [get_proxy, h0, hth, hscan]
            rw [hg]
            exact reload_pool_failed env s2
        | ixError s2 =>
            have hg : get_proxy env s = (.error .indexError, s2, false) := by
              simp [get_proxy, h0, hth, hscan]
            rw [hg] at hrel
            simp at hrel

theorem C3_acquire_never_failed_witness :
    (get_proxy { fetched := none, shuffle := id }
        { proxies := ["http://a", "http://b"], current_proxy_index := 0,
          failed_proxies := ["http://a"] }).1 = .ok (some "http://b") ∧
    "http://b" ∉ (get_proxy { fetched := none, shuffle := id }
        { proxies := ["http://a", "http://b"], current_proxy_index := 0,
          failed_proxies := ["http://a"] }).2.1.failed_proxies :=
  ⟨by decide,
    ((C3_acquire_never_failed { fetched := none, shuffle := id }
      { proxies := ["http://a", "http://b"], current_proxy_index := 0,
        failed_proxies := ["http://a"] }).1 "http://b" (by decide)).1⟩

/-- Environment and pool state exhibiting the C4 `IndexError`: the cursor was
rotated to 1 while two endpoints were loaded; both endpoints then failed, so
the next acquire crosses the 80% threshold and reloads; the reload fetches a
single endpoint, but the cursor keeps its previous value 1, and the scan's
`self.proxies[self.current_proxy_index]` indexes past the end. -/
def envC4 : LoadEnv := { fetched := some "http://c", shuffle := id }

def sC4 : PMState :=
  { proxies := ["http://a", "http://b"], current_proxy_index := 1,
    failed_proxies := ["http://a", "http://b"] }

/-- C4 (code bug): `get_proxy` is not total — on the state above it raises
`IndexError` instead of returning an endpoint or `none`, even though a reload
had just replaced the endpoint sequence (third conjunct) and the pool was
nonempty (fourth conjunct shows the reloaded pool held one endpoint). -/
theorem C4_get_proxy_index_error :
    (get_proxy envC4 sC4).1 = .error .indexError ∧
    sC4.current_proxy_index = 1 ∧
    (get_proxy envC4 sC4).2.2 = true ∧
    (get_proxy envC4 sC4).2.1.proxies = ["http://c"] := by
  decide

/-! ## PrimaryExtractor refinement (C8) -/

/-- Specification-side single-pass selection over rows: keep each row whose
raw image URL is nonempty and not yet seen, first occurrence wins. -/
def selectRows (cache : List String) : List DDGRow → List DDGRow
  | [] => []
  | r :: rest =>
      if r.image ≠ "" ∧ r.image ∉ cache then
        r :: selectRows (r.image :: cache) rest
      else selectRows cache rest

/-- The cache after selecting over `rows` starting from `cache`. -/
def cacheAfter (cache : List String) : List DDGRow → List String
  | [] => cache
  | r :: rest =>
      if r.image ≠ "" ∧ r.image ∉ cache then cacheAfter (r.image :: cache) rest
      else cacheAfter cache rest

theorem selectRows_append (b : List DDGRow) :
    ∀ (a : List DDGRow) (cache : List String),
      selectRows cache (a ++ b) =
        selectRows cache a ++ selectRows (cacheAfter cache a) b := by
  intro a
  induction a with
  | nil =>
      intro cache
      rfl
  | cons r rest ih =>
      intro cache
      by_cases hsel : r.image ≠ "" ∧ r.image ∉ cache
      · rw [List.cons_append, selectRows, if_pos hsel, selectRows, if_pos hsel,
          cacheAfter, if_pos hsel, List.cons_append, ih]
      · rw [List.cons_append, selectRows, if_neg hsel, selectRows, if_neg hsel,
          cacheAfter, if_neg hsel, ih]

theorem selectRows_eq_nil_cacheAfter :
    ∀ (rows : List DDGRow) (cache : List String),
      selectRows cache rows = [] → cacheAfter cache rows = cache := by
  intro rows
  induction rows with
  | nil =>
      intro cache _
      rfl
  | cons r rest ih =>
      intro cache h
      rw [selectRows] at h
      by_cases hsel : r.image ≠ "" ∧ r.image ∉ cache
      · rw [if_pos hsel] at h
        exact List.noConfusion h
      · rw [if_neg hsel] at h
        rw [cacheAfter, if_neg hsel]
        exact ih cache h

theorem selectRows_sublist : ∀ (rows : List DDGRow) (cache : List String),
    List.Sublist (selectRows cache rows) rows := by
  intro rows
  induction rows with
  | nil =>
      intro cache
      exact List.Sublist.refl _
  | cons r rest ih =>
      intro cache
      by_cases hsel : r.image ≠ "" ∧ r.image ∉ cache
      · rw [selectRows, if_pos hsel]
        exact List.Sublist.cons₂ r (ih _)
      · rw [selectRows, if_neg hsel]
        exact List.Sublist.cons r (ih _)

theorem selectRows_nodup : ∀ (rows : List DDGRow) (cache : List String),
    ((selectRows cache rows).map (fun r => r.image)).Nodup ∧
      ∀ x ∈ (selectRows cache rows).map (fun r => r.image), x ∉ cache := by
  intro rows
  induction rows with
  | nil =>
      intro cache
      exact ⟨List.nodup_nil, by intro x hx; cases hx⟩
  | cons r rest ih =>
      intro cache
      by_cases hsel : r.image ≠ "" ∧ r.image ∉ cache
      · rw [selectRows, if_pos hsel, List.map_cons]
        obtain ⟨ihn, ihc⟩ := ih (r.image :: cache)
        constructor
        · rw [List.nodup_cons]
          refine ⟨fun hmem => ?_, ihn⟩
          have := ihc r.image hmem
          exact this (List.mem_cons_self _ _)
        · intro x hx
          rcases List.mem_cons.mp hx with hx | hx
          · rw [hx]
            exact hsel.2
          · intro hc
            exact ihc x hx (List.mem_cons_of_mem _ hc)
      · rw [selectRows, if_neg hsel]
        exact ih cache

theorem processRows_eq (maxR : Nat) :
    ∀ (rows : List DDGRow) (res : List ImageResult) (cache : List String),
      (∀ r ∈ rows, r.height.isSome ∧ r.width.isSome) →
      (processRows maxR rows res cache).1 =
        res ++ ((selectRows cache rows).take (maxR - res.length)).map mkDDGResult := by
  intro rows
  induction rows with
  | nil =>
      intro res cache _
      simp [processRows, selectRows]
  | cons r rest ih =>
      intro res cache hw
      rw [processRows]
      by_cases hfull : maxR ≤ res.length
      · rw [if_pos hfull]
        have h0 : maxR - res.length = 0 := Nat.sub_eq_zero_of_le hfull
        simp [h0]
      · rw [if_neg hfull]
        by_cases hsel : r.image ≠ "" ∧ r.image ∉ cache
        · rw [if_pos hsel]
          obtain ⟨hh, hwd⟩ := hw r (List.mem_cons_self _ _)
          rcases Option.isSome_iff_exists.mp hh with ⟨vh, hveq⟩
          rcases Option.isSome_iff_exists.mp hwd with ⟨vw, hweq⟩
          simp only [hveq, hweq]
          rw [ih (res ++ [mkDDGResult r]) (r.image :: cache)
            (fun x hx => hw x (List.mem_cons_of_mem _ hx))]
          have hlen : maxR - res.length = (maxR - (res ++ [mkDDGResult r]).length) + 1 := by
            rw [List.length_append, List.length_singleton]
            omega
          rw [selectRows, if_pos hsel, hlen, List.take_succ_cons, List.map_cons,
            List.append_assoc, List.singleton_append]
        · rw [if_neg hsel]
          rw [ih res cache (fun x hx => hw x (List.mem_cons_of_mem _ hx))]
          rw [selectRows, if_neg hsel]

theorem processRows_full (maxR : Nat) :
    ∀ (rows : List DDGRow) (res : List ImageResult) (cache : List String),
      (∀ r ∈ rows, r.height.isSome ∧ r.width.isSome) →
      res.length + (selectRows cache rows).length ≤ maxR →
      (processRows maxR rows res cache).1 =
          res ++ (selectRows cache rows).map mkDDGResult ∧
        (processRows maxR rows res cache).2 = cacheAfter cache rows := by
  intro rows
  induction rows with
  | nil =>
      intro res cache _ _
      constructor
      · simp [processRows, selectRows]
      · rfl
  | cons r rest ih =>
      intro res cache hw hle
      rw [processRows]
      by_cases hfull : maxR ≤ res.length
      · rw [if_pos hfull]
        have hnil : selectRows cache (r :: rest) = [] := by
          by_contra hne
          have h1 : 1 ≤ (selectRows cache (r :: rest)).length :=
            Nat.one_le_iff_ne_zero.mpr (fun h => hne (List.eq_nil_of_length_eq_zero h))
          omega
        rw [hnil]
        exact ⟨by simp, (selectRows_eq_nil_cacheAfter _ _ hnil).symm ▸ rfl⟩
      · rw [if_neg hfull]
        by_cases hsel : r.image ≠ "" ∧ r.image ∉ cache
        · rw [if_pos hsel]
          obtain ⟨hh, hwd⟩ := hw r (List.mem_cons_self _ _)
          rcases Option.isSome_iff_exists.mp hh with ⟨vh, hveq⟩
          rcases Option.isSome_iff_exists.mp hwd with ⟨vw, hweq⟩
          simp only [hveq, hweq]
          have hsl : selectRows cache (r :: rest) =
              r :: selectRows (r.image :: cache) rest := by
            rw [selectRows, if_pos hsel]
          have hca : cacheAfter cache (r :: rest) =
              cacheAfter (r.image :: cache) rest := by
            rw [cacheAfter, if_pos hsel]
          have hle2 : (res ++ [mkDDGResult r]).length +
              (selectRows (r.image :: cache) rest).length ≤ maxR := by
            rw [List.length_append, List.length_singleton]
            rw [hsl] at hle
            simp only [List.length_cons] at hle
            omega
          obtain ⟨ih1, ih2⟩ := ih (res ++ [mkDDGResult r]) (r.image :: cache)
            (fun x hx => hw x (List.mem_cons_of_mem _ hx)) hle2
          refine ⟨?_, ?_⟩
          · rw [ih1, hsl, List.map_cons, List.append_assoc, List.singleton_append]
          · rw [ih2, hca]
        · rw [if_neg hsel]
          have hsl : selectRows cache (r :: rest) = selectRows cache rest := by
            rw [selectRows, if_neg hsel]
          have hca : cacheAfter cache (r :: rest) = cacheAfter cache rest := by
            rw [cacheAfter, if_neg hsel]
          rw [hsl] at hle
          obtain ⟨ih1, ih2⟩ := ih res cache
            (fun x hx => hw x (List.mem_cons_of_mem _ hx)) hle
          exact ⟨by rw [ih1, hsl], by rw [ih2, hca]⟩

/-- The two-page loop of the primary extractor, with both pages parsed and
all dimension coercions succeeding, equals one truncated single-pass
selection over the concatenated rows. -/
theorem search_duckduckgo_eq (env : DDGEnv) (q : String) (m : Nat)
    (rows0 rows1 : List DDGRow)
    (h0 : env.pages 0 = .ok rows0) (h1 : env.pages 100 = .ok rows1)
    (hw : ∀ r ∈ rows0 ++ rows1, r.height.isSome ∧ r.width.isSome) :
    search_duckduckgo_images env q m =
      ((selectRows [] (rows0 ++ rows1)).take m).map mkDDGResult := by
  have hw0 : ∀ r ∈ rows0, r.height.isSome ∧ r.width.isSome :=
    fun r hr => hw r (List.mem_append_left _ hr)
  have hw1 : ∀ r ∈ rows1, r.height.isSome ∧ r.width.isSome :=
    fun r hr => hw r (List.mem_append_right _ hr)
  have hsd : search_duckduckgo_images env q m = ddgPages env m [0, 100] [] [] := by
    simp [search_duckduckgo_images]
  by_cases hm : m = 0
  · subst hm
    simp [hsd, ddgPages]
  · have hm0 : ¬ (m ≤ ([] : List ImageResult).length) := by
      simp
      omega
    have e1 : ddgPages env m [0, 100] [] [] =
        ddgPages env m [100] (processRows m rows0 [] []).1
          (processRows m rows0 [] []).2 := by
      rw [ddgPages, if_neg hm0]
      simp only [h0]
    have hP1 : (processRows m rows0 [] []).1 =
        ((selectRows [] rows0).take m).map mkDDGResult := by
      have := processRows_eq m rows0 [] [] hw0
      simpa using this
    by_cases hfull2 : m ≤ (processRows m rows0 [] []).1.length
    · have e2 : ddgPages env m [100] (processRows m rows0 [] []).1
          (processRows m rows0 [] []).2 = (processRows m rows0 [] []).1 := by
        rw [ddgPages, if_pos hfull2]
      rw [hsd, e1, e2, hP1]
      have hlen : m ≤ (selectRows [] rows0).length := by
        rw [hP1] at hfull2
        simp [List.length_map, List.length_take] at hfull2
        omega
      congr 1
      rw [selectRows_append rows1 rows0 [], List.take_append_eq_append_take,
        Nat.sub_eq_zero_of_le hlen, List.take_zero, List.append_nil]
    · have hlt : (selectRows [] rows0).length < m := by
        rw [hP1] at hfull2
        simp [List.length_map, List.length_take] at hfull2
        omega
      obtain ⟨hf1, hf2⟩ := processRows_full m rows0 [] [] hw0
        (by simpa using Nat.le_of_lt hlt)
      have e3 : ddgPages env m [100] (processRows m rows0 [] []).1
          (processRows m rows0 [] []).2 =
          (processRows m rows1 (processRows m rows0 [] []).1
            (processRows m rows0 [] []).2).1 := by
        rw [ddgPages, if_neg hfull2]
        simp only [h1]
        rw [ddgPages]
      rw [hsd, e1, e3,
        processRows_eq m rows1 ((processRows m rows0 [] []).1)
          ((processRows m rows0 [] []).2) hw1,
        hf1, hf2]
      rw [selectRows_append rows1 rows0 [], List.take_append_eq_append_take,
        List.map_append, List.take_of_length_le (Nat.le_of_lt hlt)]
      simp [List.length_map]

/-- A row with just an image URL (scenario helper). -/
def ddgRowNamed (img : String) : DDGRow :=
  { title := "", image := img, thumbnail := "", url := "",
    height := some 0, width := some 0, source := none }

/-- First scenario page: 6 entries with distinct image URLs. -/
def rowsC8a : List DDGRow :=
  ["u1", "u2", "u3", "u4", "u5", "u6"].map ddgRowNamed

/-- Second scenario page: 4 entries with distinct image URLs. -/
def rowsC8b : List DDGRow :=
  ["u7", "u8", "u9", "u10"].map ddgRowNamed

/-- The C8 scenario environment: two primary pages of 6 and 4 entries. -/
def envC8 : SearchEnv :=
  { ddg :=
      { vqdResponse := .ok "tok", time := 0, queryHash := "h",
        pages := fun p => if p = 0 then .ok rowsC8a else .ok rowsC8b },
    bing := { fetch := .error () } }

/-- C8: with both upstream pages parsed (and entries whose dimension fields
coerce), the primary extractor equals the single-pass dedup-and-truncate
selection, so it returns at most `max_results` results, skips entries with
empty or already-seen raw image URLs (the selection's raw image URLs are
pairwise distinct), and preserves provider order (the selection is a sublist
of the concatenated rows); on the concrete 6-entry + 4-entry scenario with
distinct image URLs and `max_results = 8`, exactly 8 results come back, with
no duplicate image URLs, and the outcome engine is the primary provider's. -/
theorem C8_primary_extractor :
    (∀ env q m rows0 rows1,
      env.pages 0 = .ok rows0 → env.pages 100 = .ok rows1 →
      (∀ r ∈ rows0 ++ rows1, r.height.isSome ∧ r.width.isSome) →
      search_duckduckgo_images env q m =
          ((selectRows [] (rows0 ++ rows1)).take m).map mkDDGResult ∧
        (search_duckduckgo_images env q m).length ≤ m ∧
        (((selectRows [] (rows0 ++ rows1)).take m).map (fun r => r.image)).Nodup ∧
        List.Sublist (selectRows [] (rows0 ++ rows1)) (rows0 ++ rows1)) ∧
    ((search_images envC8 "q" 8).1.length = 8 ∧
      (search_images envC8 "q" 8).2.1 = "DuckDuckGo" ∧
      ((search_images envC8 "q" 8).1.map (fun r => r.image)).Nodup) := by
  constructor
  · intro env q m rows0 rows1 h0 h1 hw
    have he := search_duckduckgo_eq env q m rows0 rows1 h0 h1 hw
    refine ⟨he, ?_, ?_, selectRows_sublist _ _⟩
    · rw [he]
      simp [List.length_map, List.length_take]
    · have hnd := (selectRows_nodup (rows0 ++ rows1) []).1
      rw [List.map_take]
      exact hnd.sublist (List.take_sublist _ _)
  · refine ⟨?_, ?_, ?_⟩ <;> decide

theorem C8_primary_extractor_witness :
    envC8.ddg.pages 0 = .ok rowsC8a ∧ envC8.ddg.pages 100 = .ok rowsC8b ∧
    search_duckduckgo_images envC8.ddg "q" 8 =
      ((selectRows [] (rowsC8a ++ rowsC8b)).take 8).map mkDDGResult :=
  ⟨rfl, rfl,
    (C8_primary_extractor.1 envC8.ddg "q" 8 rowsC8a rowsC8b rfl rfl
      (by decide)).1⟩

/-! ## FallbackExtractor Strategy B (C9, C10) -/

/-- Normalization never produces a `data:`-scheme URL. -/
theorem normalize_url_not_data (u : String) :
    strStartsWith (normalize_url u) "data:" = false := by
  rcases urlFieldOk_normalize_url u with h | h | h
  · rw [h]
    decide
  · exact strStartsWith_excl h (by decide) (by decide)
  · exact strStartsWith_excl h (by decide) (by decide)

/-- Membership characterization for the Strategy B loop: every produced
result comes from a scanned element that passed all three filters. -/
theorem stratBGo_mem {q : String} {maxR : Nat} :
    ∀ {imgs : List ImgTag} {res : List ImageResult} {r : ImageResult},
      r ∈ stratBGo q maxR imgs res →
      r ∈ res ∨ ∃ img ∈ imgs, r = mkBResult q img ∧
        img.src ≠ "" ∧ strStartsWith img.src "data:" = false ∧
        blacklisted img.src = false ∧
        ¬(isdigitStr (img.width.getD "0") = true ∧
          isdigitStr (img.height.getD "0") = true ∧
          (strToInt (img.width.getD "0") < 100 ∨
            strToInt (img.height.getD "0") < 100)) := by
  intro imgs
  induction imgs with
  | nil =>
      intro res r hr
      rw [stratBGo] at hr
      exact Or.inl hr
  | cons img rest ih =>
      intro res r hr
      rw [stratBGo] at hr
      split at hr
      · exact Or.inl hr
      · split at hr
        · rcases ih hr with h | ⟨x, hx, hrest⟩
          · exact Or.inl h
          · exact Or.inr ⟨x, List.mem_cons_of_mem _ hx, hrest⟩
        · split at hr
          · rcases ih hr with h | ⟨x, hx, hrest⟩
            · exact Or.inl h
            · exact Or.inr ⟨x, List.mem_cons_of_mem _ hx, hrest⟩
          · split at hr
            · rcases ih hr with h | ⟨x, hx, hrest⟩
              · exact Or.inl h
              · exact Or.inr ⟨x, List.mem_cons_of_mem _ hx, hrest⟩
            · rename_i hskip1 hskip2 hskip3
              rcases ih hr with h | ⟨x, hx, hrest⟩
              · rcases List.mem_append.mp h with h | h
                · exact Or.inl h
                · rw [List.mem_singleton.mp h]
                  refine Or.inr ⟨img, List.mem_cons_self _ _, rfl, ?_, ?_, ?_, ?_⟩
                  · intro he
                    exact hskip1 (Or.inl he)
                  · rcases hb : strStartsWith img.src "data:" with _ | _
                    · rfl
                    · exact absurd (Or.inr hb) hskip1
                  · rcases hb : blacklisted img.src with _ | _
                    · rfl
                    · exact absurd hb hskip2
                  · intro hc
                    exact hskip3 ⟨hc.1, hc.2.1, hc.2.2⟩
              · exact Or.inr ⟨x, List.mem_cons_of_mem _ hx, hrest⟩

/-- C9: Strategy B never returns a result whose image source is a
`data:`-scheme URI (neither the raw source nor the normalized image field),
never returns an element with a numeric declared width or height below 100
when both declared dimensions are numeric, and examines only the first
`2 × max_results` candidate elements. -/
theorem C9_strategyB_filters :
    (∀ q m imgs, stratB q m imgs = stratB q m (imgs.take (m * 2))) ∧
    (∀ q m imgs r, r ∈ stratB q m imgs →
      ∃ img ∈ imgs.take (m * 2), r = mkBResult q img ∧
        strStartsWith img.src "data:" = false ∧
        strStartsWith r.image "data:" = false ∧
        (isdigitStr (img.width.getD "0") = true →
          isdigitStr (img.height.getD "0") = true →
          100 ≤ strToInt (img.width.getD "0") ∧
            100 ≤ strToInt (img.height.getD "0"))) := by
  constructor
  · intro q m imgs
    rw [stratB, stratB, List.take_take, Nat.min_self]
  · intro q m imgs r hr
    rw [stratB] at hr
    rcases stratBGo_mem hr with h | ⟨img, himg, heq, _, hdata, _, hdims⟩
    · cases h
    · refine ⟨img, himg, heq, hdata, ?_, ?_⟩
      · rw [heq]
        exact normalize_url_not_data img.src
      · intro hw hh
        constructor
        · by_contra hlt
          exact hdims ⟨hw, hh, Or.inl (by omega)⟩
        · by_contra hlt
          exact hdims ⟨hw, hh, Or.inr (by omega)⟩

/-- A Strategy B element passing every filter (witness input). -/
def imgW : ImgTag :=
  { src := "pic/a.jpg", width := some "200", height := some "300", alt := none }

theorem C9_strategyB_filters_witness :
    mkBResult "q" imgW ∈ stratB "q" 5 [imgW] ∧
    ∃ img ∈ ([imgW] : List ImgTag).take (5 * 2),
      mkBResult "q" imgW = mkBResult "q" img ∧
        strStartsWith img.src "data:" = false ∧
        strStartsWith (mkBResult "q" imgW).image "data:" = false ∧
        (isdigitStr (img.width.getD "0") = true →
          isdigitStr (img.height.getD "0") = true →
          100 ≤ strToInt (img.width.getD "0") ∧
            100 ≤ strToInt (img.height.getD "0")) :=
  ⟨by decide, C9_strategyB_filters.2 "q" 5 [imgW] (mkBResult "q" imgW) (by decide)⟩

/-- C10: Strategy B never returns an element that carries neither a declared
width nor a declared height attribute — the `.get` defaults make both
dimensions the numeric string `'0'`, below the 100 threshold — so every
produced result stems from an element whose defaulted declared dimensions are
both numeric and at least 100, or include a non-numeric string. -/
theorem C10_strategyB_dimension_filter (q : String) (m : Nat)
    (imgs : List ImgTag) (r : ImageResult) (hr : r ∈ stratB q m imgs) :
    ∃ img ∈ imgs, r = mkBResult q img ∧
      ¬(img.width = none ∧ img.height = none) ∧
      ((isdigitStr (img.width.getD "0") = true ∧
          isdigitStr (img.height.getD "0") = true ∧
          100 ≤ strToInt (img.width.getD "0") ∧
          100 ≤ strToInt (img.height.getD "0")) ∨
        isdigitStr (img.width.getD "0") = false ∨
        isdigitStr (img.height.getD "0") = false) := by
  rw [stratB] at hr
  rcases stratBGo_mem hr with h | ⟨img, himg, heq, _, _, _, hdims⟩
  · cases h
  · refine ⟨img, (List.take_sublist _ _).subset himg, heq, ?_, ?_⟩
    · rintro ⟨hwn, hhn⟩
      rw [hwn, hhn] at hdims
      exact hdims ⟨by decide, by decide, Or.inl (by decide)⟩
    · by_cases hw : isdigitStr (img.width.getD "0") = true
      · by_cases hh : isdigitStr (img.height.getD "0") = true
        · left
          refine ⟨hw, hh, ?_, ?_⟩
          · by_contra hlt
            exact hdims ⟨hw, hh, Or.inl (by omega)⟩
          · by_contra hlt
            exact hdims ⟨hw, hh, Or.inr (by omega)⟩
        · right; right
          simpa using hh
      · right; left
        simpa using hw

theorem C10_strategyB_dimension_filter_witness :
    mkBResult "q" imgW ∈ stratB "q" 5 [imgW] ∧
    ∃ img ∈ ([imgW] : List ImgTag),
      mkBResult "q" imgW = mkBResult "q" img ∧
        ¬(img.width = none ∧ img.height = none) ∧
        ((isdigitStr (img.width.getD "0") = true ∧
            isdigitStr (img.height.getD "0") = true ∧
            100 ≤ strToInt (img.width.getD "0") ∧
            100 ≤ strToInt (img.height.getD "0")) ∨
          isdigitStr (img.width.getD "0") = false ∨
          isdigitStr (img.height.getD "0") = false) :=
  ⟨by decide,
    C10_strategyB_dimension_filter "q" 5 [imgW] (mkBResult "q" imgW) (by decide)⟩

/-! ## RequestExecutor invariants (C5, C6) -/

/-- Every event a handler emits is a non-negative counter write (given a
non-negative starting counter): `handleReqError`. -/
theorem handleReqError_inv (hasNext rl : Bool) (e : Err) (st : MRState)
    (cp : Option String) (h : 0 ≤ st.rlc) :
    0 ≤ (handleReqError hasNext rl e st cp).1.rlc ∧
    ∀ ev ∈ (handleReqError hasNext rl e st cp).2.1,
      ∃ v, ev = Ev.rlcSet v ∧ 0 ≤ v := by
  rcases rl with _ | _
  · rcases hasNext with _ | _ <;>
      simp [handleReqError] <;> exact h
  · rcases hasNext with _ | _ <;>
      · constructor
        · simp [handleReqError]
          omega
        · intro ev hev
          simp [handleReqError] at hev
          exact ⟨st.rlc + 1, hev, by omega⟩

/-- Every event a handler emits is a non-negative counter write:
`handleProxyError` (it emits none). -/
theorem handleProxyError_inv (hasNext : Bool) (st : MRState)
    (cp : Option String) (h : 0 ≤ st.rlc) :
    0 ≤ (handleProxyError hasNext st cp).1.rlc ∧
    ∀ ev ∈ (handleProxyError hasNext st cp).2.1,
      ∃ v, ev = Ev.rlcSet v ∧ 0 ≤ v := by
  rcases hasNext with _ | _ <;> simp [handleProxyError] <;> exact h

/-- Every event the response handler emits is a non-negative counter write. -/
theorem handleResponse_inv (hasNext : Bool) (c : Nat) (st : MRState)
    (cp : Option String) (h : 0 ≤ st.rlc) :
    0 ≤ (handleResponse hasNext c st cp).1.rlc ∧
    ∀ ev ∈ (handleResponse hasNext c st cp).2.1,
      ∃ v, ev = Ev.rlcSet v ∧ 0 ≤ v := by
  by_cases hl : c = 429 ∨ c = 403 ∨ c = 503
  · by_cases hn : hasNext = true
    · have e : handleResponse hasNext c st cp =
          ({ rlc := st.rlc + 1,
             pm := rotate_proxy (mark_proxy_failed cp st.pm) },
            [Ev.rlcSet (st.rlc + 1)], .retry) := by
        simp [handleResponse, hl, hn]
      rw [e]
      refine ⟨by show 0 ≤ st.rlc + 1; omega, ?_⟩
      intro ev hev
      simp at hev
      exact ⟨st.rlc + 1, hev, by omega⟩
    · rw [Bool.not_eq_true] at hn
      subst hn
      have h4 : 400 ≤ c ∧ c < 600 := by
        rcases hl with rfl | rfl | rfl <;> omega
      have h200 : ¬ c = 200 := by omega
      have hst1 : 0 ≤ st.rlc + 1 := by omega
      rcases hre : handleReqError false (decide (c = 429)) (.httpError c)
          { rlc := st.rlc + 1, pm := mark_proxy_failed cp st.pm } cp
        with ⟨st3, evs3, r3⟩
      have e : handleResponse false c st cp =
          (st3, [Ev.rlcSet (st.rlc + 1)] ++ evs3, r3) := by
        simp [handleResponse, hl, h200, h4, hre]
      rw [e]
      have hinv := handleReqError_inv false (decide (c = 429)) (.httpError c)
        { rlc := st.rlc + 1, pm := mark_proxy_failed cp st.pm } cp hst1
      rw [hre] at hinv
      refine ⟨hinv.1, ?_⟩
      intro ev hev
      rcases List.mem_append.mp hev with hev | hev
      · simp at hev
        exact ⟨st.rlc + 1, hev, by omega⟩
      · exact hinv.2 ev hev
  · by_cases h4 : 400 ≤ c ∧ c < 600
    · have h200 : ¬ c = 200 := by omega
      rcases hre : handleReqError hasNext (decide (c = 429)) (.httpError c) st cp
        with ⟨st3, evs3, r3⟩
      have e : handleResponse hasNext c st cp = (st3, evs3, r3) := by
        simp [handleResponse, hl, h200, h4, hre]
      rw [e]
      have hinv := handleReqError_inv hasNext (decide (c = 429)) (.httpError c)
        st cp h
      rw [hre] at hinv
      exact hinv
    · by_cases h200 : c = 200
      · have e : handleResponse hasNext c st cp =
            ({ st with rlc := max 0 (st.rlc - 1) },
              [Ev.rlcSet (max 0 (st.rlc - 1))], .done c) := by
          simp [handleResponse, hl, h200, h4]
        rw [e]
        refine ⟨by show 0 ≤ max 0 (st.rlc - 1); omega, ?_⟩
        intro ev hev
        simp at hev
        exact ⟨max 0 (st.rlc - 1), hev, by omega⟩
      · have e : handleResponse hasNext c st cp = (st, [], .done c) := by
          simp [handleResponse, hl, h200, h4]
        rw [e]
        exact ⟨h, by intro ev hev; cases hev⟩

/-- Attempt-level invariant: the counter stays non-negative and every event
is a non-negative counter write or a proxy acquisition made with the counter
above the threshold 2. -/
theorem attemptStep_inv (env : ReqEnv) (i : Nat) (hasNext : Bool)
    (st : MRState) (ctx : LoopCtx) (h : 0 ≤ st.rlc) :
    0 ≤ (attemptStep env i hasNext st ctx).1.rlc ∧
    ∀ ev ∈ (attemptStep env i hasNext st ctx).2.2.1,
      (∃ v, ev = Ev.rlcSet v ∧ 0 ≤ v) ∨
        (∃ c p, ev = Ev.proxyAcquired c p ∧ 2 < c) := by
  by_cases hrlc : 2 < st.rlc
  · rcases hgp : get_proxy env.penv st.pm with ⟨gres, pm1, b⟩
    cases gres with
    | error e =>
        have e1 : attemptStep env i hasNext st ctx =
            ({ st with pm := pm1 }, ctx, [], .fail e) := by
          simp [attemptStep, hrlc, hgp]
        rw [e1]
        exact ⟨h, by intro ev hev; cases hev⟩
    | ok p =>
        cases hout : env.outcomes i with
        | status c =>
            rcases hh : handleResponse hasNext c { st with pm := pm1 } p
              with ⟨st2, evs2, r2⟩
            have e1 : (attemptStep env i hasNext st ctx).1 = st2 := by
              simp [attemptStep, hrlc, hgp, hout, hh]
            have e2 : (attemptStep env i hasNext st ctx).2.2.1 =
                [Ev.proxyAcquired st.rlc p] ++ evs2 := by
              simp [attemptStep, hrlc, hgp, hout, hh]
            rw [e1, e2]
            have hinv := handleResponse_inv hasNext c { st with pm := pm1 } p h
            rw [hh] at hinv
            refine ⟨hinv.1, ?_⟩
            intro ev hev
            rcases List.mem_append.mp hev with hev | hev
            · simp at hev
              exact Or.inr ⟨st.rlc, p, hev, hrlc⟩
            · rcases hinv.2 ev hev with ⟨v, hv, hv0⟩
              exact Or.inl ⟨v, hv, hv0⟩
        | proxyErr =>
            rcases hh : handleProxyError hasNext { st with pm := pm1 } p
              with ⟨st2, evs2, r2⟩
            have e1 : (attemptStep env i hasNext st ctx).1 = st2 := by
              simp [attemptStep, hrlc, hgp, hout, hh]
            have e2 : (attemptStep env i hasNext st ctx).2.2.1 =
                [Ev.proxyAcquired st.rlc p] ++ evs2 := by
              simp [attemptStep, hrlc, hgp, hout, hh]
            rw [e1, e2]
            have hinv := handleProxyError_inv hasNext { st with pm := pm1 } p h
            rw [hh] at hinv
            refine ⟨hinv.1, ?_⟩
            intro ev hev
            rcases List.mem_append.mp hev with hev | hev
            · simp at hev
              exact Or.inr ⟨st.rlc, p, hev, hrlc⟩
            · rcases hinv.2 ev hev with ⟨v, hv, hv0⟩
              exact Or.inl ⟨v, hv, hv0⟩
        | reqExc rl =>
            rcases hh : handleReqError hasNext rl (.reqException rl)
                { st with pm := pm1 } p with ⟨st2, evs2, r2⟩
            have e1 : (attemptStep env i hasNext st ctx).1 = st2 := by
              simp [attemptStep, hrlc, hgp, hout, hh]
            have e2 : (attemptStep env i hasNext st ctx).2.2.1 =
                [Ev.proxyAcquired st.rlc p] ++ evs2 := by
              simp [attemptStep, hrlc, hgp, hout, hh]
            rw [e1, e2]
            have hinv := handleReqError_inv hasNext rl (.reqException rl)
              { st with pm := pm1 } p h
            rw [hh] at hinv
            refine ⟨hinv.1, ?_⟩
            intro ev hev
            rcases List.mem_append.mp hev with hev | hev
            · simp at hev
              exact Or.inr ⟨st.rlc, p, hev, hrlc⟩
            · rcases hinv.2 ev hev with ⟨v, hv, hv0⟩
              exact Or.inl ⟨v, hv, hv0⟩
  · cases hout : env.outcomes i with
    | status c =>
        rcases hh : handleResponse hasNext c st ctx.currentProxy
          with ⟨st2, evs2, r2⟩
        have e1 : attemptStep env i hasNext st ctx = (st2, ctx, evs2, r2) := by
          simp [attemptStep, hrlc, hout, hh]
        rw [e1]
        have hinv := handleResponse_inv hasNext c st ctx.currentProxy h
        rw [hh] at hinv
        refine ⟨hinv.1, ?_⟩
        intro ev hev
        rcases hinv.2 ev hev with ⟨v, hv, hv0⟩
        exact Or.inl ⟨v, hv, hv0⟩
    | proxyErr =>
        rcases hh : handleProxyError hasNext st ctx.currentProxy
          with ⟨st2, evs2, r2⟩
        have e1 : attemptStep env i hasNext st ctx = (st2, ctx, evs2, r2) := by
          simp [attemptStep, hrlc, hout, hh]
        rw [e1]
        have hinv := handleProxyError_inv hasNext st ctx.currentProxy h
        rw [hh] at hinv
        refine ⟨hinv.1, ?_⟩
        intro ev hev
        rcases hinv.2 ev hev with ⟨v, hv, hv0⟩
        exact Or.inl ⟨v, hv, hv0⟩
    | reqExc rl =>
        rcases hh : handleReqError hasNext rl (.reqException rl) st
            ctx.currentProxy with ⟨st2, evs2, r2⟩
        have e1 : attemptStep env i hasNext st ctx = (st2, ctx, evs2, r2) := by
          simp [attemptStep, hrlc, hout, hh]
        rw [e1]
        have hinv := handleReqError_inv hasNext rl (.reqException rl) st
          ctx.currentProxy h
        rw [hh] at hinv
        refine ⟨hinv.1, ?_⟩
        intro ev hev
        rcases hinv.2 ev hev with ⟨v, hv, hv0⟩
        exact Or.inl ⟨v, hv, hv0⟩

/-- Loop-level invariant for the retry loop. -/
theorem mrLoop_inv (env : ReqEnv) :
    ∀ (l : List Nat) (st : MRState) (ctx : LoopCtx) (evs : List Ev),
      0 ≤ st.rlc →
      (∀ ev ∈ evs, (∃ v, ev = Ev.rlcSet v ∧ 0 ≤ v) ∨
        (∃ c p, ev = Ev.proxyAcquired c p ∧ 2 < c)) →
      0 ≤ (mrLoop env l st ctx evs).2.1.rlc ∧
      ∀ ev ∈ (mrLoop env l st ctx evs).2.2,
        (∃ v, ev = Ev.rlcSet v ∧ 0 ≤ v) ∨
          (∃ c p, ev = Ev.proxyAcquired c p ∧ 2 < c) := by
  intro l
  induction l with
  | nil =>
      intro st ctx evs h hevs
      exact ⟨h, hevs⟩
  | cons i rest ih =>
      intro st ctx evs h hevs
      have hstep := attemptStep_inv env i (!rest.isEmpty) st ctx h
      rcases hs : attemptStep env i (!rest.isEmpty) st ctx
        with ⟨st1, ctx1, evs1, r⟩
      rw [hs] at hstep
      have hall : ∀ ev ∈ evs ++ evs1,
          (∃ v, ev = Ev.rlcSet v ∧ 0 ≤ v) ∨
            (∃ c p, ev = Ev.proxyAcquired c p ∧ 2 < c) := by
        intro ev hev
        rcases List.mem_append.mp hev with hev | hev
        · exact hevs ev hev
        · exact hstep.2 ev hev
      cases r with
      | done c =>
          have e1 : mrLoop env (i :: rest) st ctx evs = (.ok c, st1, evs ++ evs1) := by
            rw [mrLoop, hs]
          rw [e1]
          exact ⟨hstep.1, hall⟩
      | fail e =>
          have e1 : mrLoop env (i :: rest) st ctx evs =
              (.error e, st1, evs ++ evs1) := by
            rw [mrLoop, hs]
          rw [e1]
          exact ⟨hstep.1, hall⟩
      | retry =>
          have e1 : mrLoop env (i :: rest) st ctx evs =
              mrLoop env rest st1 ctx1 (evs ++ evs1) := by
            rw [mrLoop, hs]
          rw [e1]
          exact ih st1 ctx1 (evs ++ evs1) hstep.1 hall

/-- Call-level invariant for `_make_request`. -/
theorem make_request_inv (env : ReqEnv) (st : MRState) (h : 0 ≤ st.rlc) :
    0 ≤ (make_request env st).2.1.rlc ∧
    ∀ ev ∈ (make_request env st).2.2,
      (∃ v, ev = Ev.rlcSet v ∧ 0 ≤ v) ∨
        (∃ c p, ev = Ev.proxyAcquired c p ∧ 2 < c) := by
  rw [make_request]
  exact mrLoop_inv env [0, 1, 2] st _ [] h (by intro ev hev; cases hev)

/-- C5: across every sequence of request executions started with a
non-negative counter (it is initialized to 0), the shared rate-limit counter
is non-negative after every write and at the end, and every proxy
acquisition happens with the counter above the activation threshold 2 at the
start of its attempt. -/
theorem C5_rate_limit_invariant (envs : List ReqEnv) (st : MRState)
    (h : 0 ≤ st.rlc) :
    0 ≤ (run_requests envs st).1.rlc ∧
    (∀ v, Ev.rlcSet v ∈ (run_requests envs st).2 → 0 ≤ v) ∧
    (∀ c p, Ev.proxyAcquired c p ∈ (run_requests envs st).2 → 2 < c) := by
  have main : ∀ (es : List ReqEnv) (acc : MRState × List Ev),
      0 ≤ acc.1.rlc →
      (∀ ev ∈ acc.2, (∃ v, ev = Ev.rlcSet v ∧ 0 ≤ v) ∨
        (∃ c p, ev = Ev.proxyAcquired c p ∧ 2 < c)) →
      0 ≤ (es.foldl (fun acc e =>
          let r := make_request e acc.1
          (r.2.1, acc.2 ++ r.2.2)) acc).1.rlc ∧
      ∀ ev ∈ (es.foldl (fun acc e =>
          let r := make_request e acc.1
          (r.2.1, acc.2 ++ r.2.2)) acc).2,
        (∃ v, ev = Ev.rlcSet v ∧ 0 ≤ v) ∨
          (∃ c p, ev = Ev.proxyAcquired c p ∧ 2 < c) := by
    intro es
    induction es with
    | nil =>
        intro acc hacc hevs
        exact ⟨hacc, hevs⟩
    | cons e rest ih =>
        intro acc hacc hevs
        rw [List.foldl_cons]
        have hmr := make_request_inv e acc.1 hacc
        refine ih _ hmr.1 ?_
        intro ev hev
        rcases List.mem_append.mp hev with hev | hev
        · exact hevs ev hev
        · exact hmr.2 ev hev
  have hm := main envs (st, []) h (by intro ev hev; cases hev)
  rw [run_requests]
  refine ⟨hm.1, ?_, ?_⟩
  · intro v hv
    rcases hm.2 _ hv with ⟨w, hw, hw0⟩ | ⟨c, p, hcp, _⟩
    · injection hw with hvw
      rw [hvw]
      exact hw0
    · exact Ev.noConfusion hcp
  · intro c p hcp
    rcases hm.2 _ hcp with ⟨w, hw, _⟩ | ⟨c2, p2, hcp2, h2⟩
    · exact Ev.noConfusion hw
    · injection hcp2 with hc hp
      rw [hc]
      exact h2

/-- Environments for the C5 witness: a first call that sees a 429 and then a
200, and a second call that succeeds at once. -/
def reqEnvW1 : ReqEnv :=
  { outcomes := fun i => if i = 0 then .status 429 else .status 200,
    penv := { fetched := none, shuffle := id } }

def reqEnvW2 : ReqEnv :=
  { outcomes := fun _ => .status 200,
    penv := { fetched := none, shuffle := id } }

def mrStateW : MRState :=
  { rlc := 0, pm := { proxies := [], current_proxy_index := 0, failed_proxies := [] } }

theorem C5_rate_limit_invariant_witness :
    (0 : Int) ≤ mrStateW.rlc ∧
    0 ≤ (run_requests [reqEnvW1, reqEnvW2] mrStateW).1.rlc ∧
    (∀ v, Ev.rlcSet v ∈ (run_requests [reqEnvW1, reqEnvW2] mrStateW).2 → 0 ≤ v) :=
  ⟨by decide,
    (C5_rate_limit_invariant [reqEnvW1, reqEnvW2] mrStateW (by decide)).1,
    (C5_rate_limit_invariant [reqEnvW1, reqEnvW2] mrStateW (by decide)).2.1⟩

/-- A call whose every attempt yields a 201 Created response, starting with
counter 1. -/
def reqEnvC6 : ReqEnv :=
  { outcomes := fun _ => .status 201,
    penv := { fetched := none, shuffle := id } }

def mrStateC6 : MRState :=
  { rlc := 1, pm := { proxies := [], current_proxy_index := 0, failed_proxies := [] } }

/-- C6 counterexample: the claim says every response with a 2xx status
decrements the counter (floor 0) and is returned; on a 201 response the code
returns it but only decrements on status exactly 200, so the counter stays 1
instead of the claimed max 0 (1-1) = 0. -/
theorem C6_counterexample_status_201 :
    (make_request reqEnvC6 mrStateC6).1 = .ok 201 ∧
    (make_request reqEnvC6 mrStateC6).2.1.rlc = 1 ∧
    ¬ ((1 : Int) = max 0 (1 - 1)) := by
  decide

/-- C6 (amended): a response with status below 400 is returned to the
caller, with the counter decremented by one (floor 0) exactly when the
status is 200 and untouched otherwise; a 4xx/5xx response other than
429/403/503 leaves the state untouched and retries when attempts remain or
raises the HTTP failure on the last attempt — so when every attempt yields
such a status the call raises the HTTP failure to the caller (here stated
for calls below the proxy activation threshold). -/
theorem C6_response_handling :
    (∀ (hasNext : Bool) (c : Nat) (st : MRState) (cp : Option String),
      c < 400 →
      (handleResponse hasNext c st cp).2.2 = .done c ∧
      (handleResponse hasNext c st cp).1.rlc =
        (if c = 200 then max 0 (st.rlc - 1) else st.rlc) ∧
      (handleResponse hasNext c st cp).1.pm = st.pm) ∧
    (∀ (hasNext : Bool) (c : Nat) (st : MRState) (cp : Option String),
      400 ≤ c → c < 600 → c ≠ 429 → c ≠ 403 → c ≠ 503 →
      (handleResponse hasNext c st cp).2.2 =
        (if hasNext then .retry else .fail (.httpError c)) ∧
      (handleResponse hasNext c st cp).1 = st) ∧
    (∀ (env : ReqEnv) (st : MRState) (c : Nat),
      (∀ i, env.outcomes i = .status c) →
      400 ≤ c → c < 600 → c ≠ 429 → c ≠ 403 → c ≠ 503 → st.rlc ≤ 2 →
      (make_request env st).1 = .error (.httpError c)) := by
  have hB : ∀ (hasNext : Bool) (c : Nat) (st : MRState) (cp : Option String),
      400 ≤ c → c < 600 → c ≠ 429 → c ≠ 403 → c ≠ 503 →
      (handleResponse hasNext c st cp).2.2 =
        (if hasNext then .retry else .fail (.httpError c)) ∧
      (handleResponse hasNext c st cp).1 = st := by
    intro hasNext c st cp h4a h4b h1 h2 h3
    have hl : ¬ (c = 429 ∨ c = 403 ∨ c = 503) := by
      simp [h1, h2, h3]
    have h200 : ¬ c = 200 := by omega
    have h4 : 400 ≤ c ∧ c < 600 := ⟨h4a, h4b⟩
    have hdec : (decide (c = 429)) = false := by
      simp [h1]
    cases hasNext with
    | false =>
        constructor <;>
          simp [handleResponse, handleReqError, hl, h200, h4, hdec]
    | true =>
        constructor <;>
          simp [handleResponse, handleReqError, hl, h200, h4, hdec]
  refine ⟨?_, hB, ?_⟩
  · intro hasNext c st cp hc
    have hl : ¬ (c = 429 ∨ c = 403 ∨ c = 503) := by omega
    have h4 : ¬ (400 ≤ c ∧ c < 600) := by omega
    by_cases h200 : c = 200
    · refine ⟨?_, ?_, ?_⟩ <;> simp [handleResponse, hl, h4, h200]
    · refine ⟨?_, ?_, ?_⟩ <;> simp [handleResponse, hl, h4, h200]
  · intro env st c hout h4a h4b h1 h2 h3 hle
    have hnot : ¬ (2 < st.rlc) := by omega
    have estep : ∀ (i : Nat) (hasNext : Bool) (ctx : LoopCtx),
        (attemptStep env i hasNext st ctx).1 = st ∧
        (attemptStep env i hasNext st ctx).2.1 = ctx ∧
        (attemptStep env i hasNext st ctx).2.2.2 =
          (if hasNext then .retry else .fail (.httpError c)) := by
      intro i hasNext ctx
      rcases hh : handleResponse hasNext c st ctx.currentProxy
        with ⟨st2, evs2, r2⟩
      have hb2 := hB hasNext c st ctx.currentProxy h4a h4b h1 h2 h3
      rw [hh] at hb2
      refine ⟨?_, ?_, ?_⟩
      · have e1 : (attemptStep env i hasNext st ctx).1 = st2 := by
          simp [attemptStep, hnot, hout i, hh]
        rw [e1]
        exact hb2.2
      · simp [attemptStep, hnot, hout i, hh]
      · have e1 : (attemptStep env i hasNext st ctx).2.2.2 = r2 := by
          simp [attemptStep, hnot, hout i, hh]
        rw [e1]
        exact hb2.1
    have eloop : ∀ (l : List Nat) (ctx : LoopCtx) (evs : List Ev), l ≠ [] →
        (mrLoop env l st ctx evs).1 = .error (.httpError c) := by
      intro l
      induction l with
      | nil =>
          intro ctx evs hne
          exact absurd rfl hne
      | cons i rest ih =>
          intro ctx evs _
          rcases hs : attemptStep env i (!rest.isEmpty) st ctx
            with ⟨s1, c1, e1, r1⟩
          have he := estep i (!rest.isEmpty) ctx
          rw [hs] at he
          cases rest with
          | nil =>
              have hr : r1 = .fail (.httpError c) := by simpa using he.2.2
              rw [hr] at hs
              have hs2 : attemptStep env i false st ctx =
                  (s1, c1, e1, .fail (.httpError c)) := hs
              simp [mrLoop, hs2]
          | cons j rest2 =>
              have hr : r1 = .retry := by simpa using he.2.2
              rw [hr] at hs
              have e2 : mrLoop env (i :: j :: rest2) st ctx evs =
                  mrLoop env (j :: rest2) s1 c1 (evs ++ e1) := by
                rw [mrLoop, hs]
              have hs1 : s1 = st := he.1
              rw [e2, hs1]
              exact ih c1 (evs ++ e1) (by simp)
    rw [make_request]
    exact eloop [0, 1, 2] _ [] (by simp)

/-- A call whose every attempt yields a 404 response. -/
def reqEnvC6b : ReqEnv :=
  { outcomes := fun _ => .status 404,
    penv := { fetched := none, shuffle := id } }

theorem C6_response_handling_witness :
    ((204 : Nat) < 400 ∧
      (handleResponse true 204 mrStateW none).2.2 = .done 204) ∧
    (make_request reqEnvC6b mrStateW).1 = .error (.httpError 404) :=
  ⟨⟨by decide, (C6_response_handling.1 true 204 mrStateW none (by decide)).1⟩,
    C6_response_handling.2.2 reqEnvC6b mrStateW 404 (fun _ => rfl) (by decide)
      (by decide) (by decide) (by decide) (by decide) (by decide)⟩

end Imagy
